import Mathlib

/-!
Verification of the core of `ai-video-mockup-planner` (backend Python code)
against its natural-language specification.

The Python source is embedded shallowly:
* `utils.parse_asset_id` / `utils.build_asset_id` (asset reference codec),
* `storage.StorageRepository` (versioned asset store, one asset kind),
* `pipeline.update_script` / `pipeline._validate_and_repair_shot_plan`,
* `continuity.validate_shot_plan` and its deterministic sub-validators,
* `plan_editing.apply_patches` (path-addressed patch engine) modelled over an
  explicit heap of mutable dicts/lists, so that mutation and aliasing are real.
-/

namespace AVMP

/-! ## Asset reference codec (`utils.parse_asset_id`, `utils.build_asset_id`) -/

/-- `str.isdigit` on one ASCII character (`int(...)` only ever sees these here). -/
def pyDigit (c : Char) : Bool := '0' ≤ c && c ≤ '9'

/-- Python `s.isdigit()`: non-empty and all digits. -/
def pyIsDigitStr (s : List Char) : Bool := !s.isEmpty && s.all pyDigit

/-- Numeric value of one digit character, as `int()` computes it. -/
def digitToNat (c : Char) : Nat := c.toNat - 48

/-- Python `int(s)` for a digit string. -/
def natOfDigitChars (s : List Char) : Nat :=
  s.foldl (fun acc c => acc * 10 + digitToNat c) 0

/-- One decimal digit rendered as a character. -/
def digitChar : Nat → Char
  | 0 => '0' | 1 => '1' | 2 => '2' | 3 => '3' | 4 => '4'
  | 5 => '5' | 6 => '6' | 7 => '7' | 8 => '8' | 9 => '9'
  | _ => '*'

/-- Decimal digit emission, most significant first, with enough fuel. -/
def natToCharsAux : Nat → Nat → List Char → List Char
  | 0, _, acc => acc
  | fuel + 1, n, acc =>
    if n < 10 then digitChar (n % 10) :: acc
    else natToCharsAux fuel (n / 10) (digitChar (n % 10) :: acc)

/-- Python `str(n)` for a natural number (decimal). -/
def natToChars (n : Nat) : List Char := natToCharsAux (n + 1) n []

/-- Python `s.rsplit('_v', 1)` restricted to the success shape: splits `s` at
the last occurrence of the two-character separator `_v`, returning the parts
before and after it; `none` when the separator does not occur. -/
def rsplitV : List Char → Option (List Char × List Char)
  | [] => none
  | c :: rest =>
    match rsplitV rest with
    | some (pre, post) => some (c :: pre, post)
    | none =>
      if c = '_' ∧ rest.head? = some 'v' then some ([], rest.tail) else none

/-- `utils.parse_asset_id`, character-list level: split at the last `_v`; if the
suffix is a digit string return `(prefix, int(suffix))`, else `(whole, 1)`. -/
def parse_asset_id_chars (s : List Char) : List Char × Nat :=
  match rsplitV s with
  | some (pre, post) =>
    if pyIsDigitStr post then (pre, natOfDigitChars post) else (s, 1)
  | none => (s, 1)

/-- `utils.build_asset_id`, character-list level: `f"{stable_id}_v{version}"`. -/
def build_asset_id_chars (sid : List Char) (v : Nat) : List Char :=
  sid ++ '_' :: 'v' :: natToChars v

/-- `utils.parse_asset_id`. -/
def parse_asset_id (s : String) : String × Nat :=
  let p := parse_asset_id_chars s.data
  (String.mk p.1, p.2)

/-- `utils.build_asset_id`. -/
def build_asset_id (sid : String) (v : Nat) : String :=
  String.mk (build_asset_id_chars sid.data v)

/-- `pipeline._parse_asset_ref` — a verbatim duplicate of `utils.parse_asset_id`. -/
def parse_asset_ref (s : String) : String × Nat :=
  let p := parse_asset_id_chars s.data
  (String.mk p.1, p.2)

/-- Does the string contain `_v` immediately followed by a digit somewhere? -/
def vSepDigits : List Char → Bool
  | c1 :: c2 :: c3 :: rest =>
    (c1 = '_' && c2 = 'v' && pyDigit c3) || vSepDigits (c2 :: c3 :: rest)
  | _ => false

/-! ## Asset repository (`storage.StorageRepository`), one asset kind

A versioned asset as stored on disk: its stable id, its version, and an
opaque payload standing for the rest of the dumped JSON document. -/

structure SAsset where
  stable_id : String
  version : Nat
  payload : String
deriving DecidableEq

/-- One `_index.json` entry: `{"versions": [...], "latest": n}`. -/
structure IndexEntry where
  versions : List Nat
  latest : Nat
deriving DecidableEq

/-- A per-kind asset directory: the JSON files keyed by file name (the built
asset id) and the `_index.json` contents keyed by stable id. -/
structure KindStore where
  files : List (String × SAsset)
  index : List (String × IndexEntry)
deriving DecidableEq

/-- Python dict read: `d.get(k)` / `d[k]`. -/
def alistGet {α : Type} (l : List (String × α)) (k : String) : Option α :=
  (l.find? (fun p => p.1 == k)).map (·.2)

/-- Python dict write `d[k] = v` (also `path.write_text`, which overwrites an
existing file): replace the binding if the key exists (keys are unique in a
dict), else append it at the end, preserving insertion order. -/
def alistSet {α : Type} : List (String × α) → String → α → List (String × α)
  | [], k, v => [(k, v)]
  | p :: tl, k, v => if p.1 = k then (k, v) :: tl else p :: alistSet tl k v

/-- Python `max(xs)` for the non-empty lists of versions used here. -/
def listMax (xs : List Nat) : Nat := xs.foldl Nat.max 0

/-- `storage._update_asset_index`. -/
def updateAssetIndex (index : List (String × IndexEntry)) (sid : String)
    (v : Nat) : List (String × IndexEntry) :=
  let entry := match alistGet index sid with
    | some e => e
    | none => ⟨[], v⟩
  let versions := if entry.versions.contains v then entry.versions
    else entry.versions ++ [v]
  alistSet index sid ⟨versions, listMax versions⟩

/-- `storage.create_script_asset` / `create_plan_asset` /
`create_shot_plan_asset` / `create_image_asset`: `_save_json` the dump at the
built asset id (overwriting any existing file), then update the index. -/
def create_asset (s : KindStore) (a : SAsset) : KindStore :=
  { files := alistSet s.files (build_asset_id a.stable_id a.version) a,
    index := updateAssetIndex s.index a.stable_id a.version }

/-- `storage._get_latest_version`. -/
def getLatestVersion (s : KindStore) (sid : String) : Option Nat :=
  (alistGet s.index sid).map (·.latest)

/-- `storage.get_script_asset` (and the analogous getters): resolve a missing
version through the index, then read the file. -/
def get_asset (s : KindStore) (sid : String) (version : Option Nat) :
    Option SAsset :=
  match version with
  | some v => alistGet s.files (build_asset_id sid v)
  | none =>
    match getLatestVersion s sid with
    | none => none
    | some v => alistGet s.files (build_asset_id sid v)

def emptyStore : KindStore := ⟨[], []⟩

/-- `pipeline.create_script`: a fresh script is stored at version 1. -/
def pipeline_create_script (s : KindStore) (sid content : String) : KindStore :=
  create_asset s ⟨sid, 1, content⟩

/-- `pipeline.update_script`: load the latest version, store the new content
at `existing.version + 1` (fails when the stable id is unknown). -/
def pipeline_update_script (s : KindStore) (sid content : String) :
    Option KindStore :=
  (get_asset s sid none).map (fun ex => create_asset s ⟨sid, ex.version + 1, content⟩)

/-- A sequence of `update_script` calls against the repository. -/
def runUpdates (sid : String) (s : KindStore) : List String → Option KindStore
  | [] => some s
  | c :: cs =>
    match pipeline_update_script s sid c with
    | none => none
    | some s' => runUpdates sid s' cs

/-- `pipeline.patch_plan`, restricted to its versioning behaviour: resolve the
caller-supplied reference with `_parse_asset_ref`, load exactly that version
(the `ValueError` when it is absent is modelled as `none`), patch the payload
(`apply_patches` is abstracted as `patchFn` since it never reads or writes the
store), and put the result at `plan.version + 1` — not at latest + 1. -/
def pipeline_patch_plan (patchFn : String → String) (s : KindStore)
    (ref : String) : Option KindStore :=
  let p := parse_asset_ref ref
  match get_asset s p.1 (some p.2) with
  | none => none
  | some plan =>
    some (create_asset s ⟨p.1, plan.version + 1, patchFn plan.payload⟩)

/-- Appending a marker character: a stand-in for what `apply_patches` does to
the dumped plan content. -/
def starPatch (c : String) : String := String.append c "*"

/-- A store holding versions 1, 2, 3 of the stable id `plan_1` (latest 3), as
three repository-mediated puts build it. -/
def c8Store : KindStore :=
  create_asset (create_asset (create_asset emptyStore
    ⟨"plan_1", 1, "A"⟩) ⟨"plan_1", 2, "B"⟩) ⟨"plan_1", 3, "C"⟩

/-- The version list `[1, ..., n]` in index order. -/
def rangeVersions (n : Nat) : List Nat := (List.range n).map (· + 1)

/-- Repository invariant for one stable id after `n` stored versions. -/
def StoreInv (sid : String) (n : Nat) (s : KindStore) : Prop :=
  alistGet s.index sid = some ⟨rangeVersions n, n⟩ ∧
  (∀ v, 1 ≤ v → v ≤ n → ∃ a, alistGet s.files (build_asset_id sid v) = some a ∧
      a.stable_id = sid ∧ a.version = v) ∧
  (∀ p ∈ s.files, (p : String × SAsset).2.version ≤ n)

/-! ## Continuity validation (`continuity.py`) and the repair loop
(`pipeline._validate_and_repair_shot_plan`)

Data model from `schemas.py`, restricted to the fields the validators and the
repair loop consult (float-typed and purely cosmetic fields are omitted). -/

inductive QASeverity where
  | error | warning | info
deriving DecidableEq

structure QAIssue where
  severity : QASeverity
  issue_type : String
  message : String
  suggested_fix : Option String := none
  shot_id : Option String := none
deriving DecidableEq

structure StateDict where
  props_held : List String := []
  wardrobe_state : List (String × String) := []
  injuries_visible : List String := []
  time_of_day : Option String := none
  weather : Option String := none
deriving DecidableEq

/-- `schemas.Shot`.  `negative_prompt` is `Option String` so that the unset
(`None`) state distinguished by `_validate_required_fields` is representable;
the pydantic schema defaults it to `""`. -/
structure Shot where
  shot_id : String
  scene_id : String
  shot_index_in_scene : Int
  location_id : String
  characters : List String := []
  continuity_lock : String
  negative_prompt : Option String := some ""
  state_in : StateDict := {}
  state_out : StateDict := {}
deriving DecidableEq

structure Character where
  character_id : String
  name : String := ""
  identity_lock : String := ""
deriving DecidableEq

structure Location where
  location_id : String
  name : String := ""
  location_lock : String := ""
deriving DecidableEq

structure Scene where
  scene_id : String
  title : String := ""
deriving DecidableEq

/-- `schemas.PlanAsset`, restricted to what the validators consult. -/
structure PlanA where
  plan_id : String
  version : Nat
  characters : List Character := []
  locations : List Location := []
  scenes : List Scene := []
deriving DecidableEq

/-- `schemas.ShotPlanAsset`. -/
structure ShotPlanA where
  shot_plan_id : String
  version : Nat
  plan_id : String
  plan_version : Nat
  shots : List Shot := []
deriving DecidableEq

/-- Python `str` whitespace characters recognised by `str.strip()`. -/
def pyIsSpace (c : Char) : Bool :=
  c = ' ' || c = '\t' || c = '\n' || c = '\r' || c = '\x0b' || c = '\x0c'

/-- Python `s.strip()`. -/
def pyStrip (s : String) : String :=
  String.mk (((s.data.dropWhile pyIsSpace).reverse.dropWhile pyIsSpace).reverse)

/-- Truthiness of an `Optional[str]`: `None` and `""` are falsy. -/
def truthyStr : Option String → Bool
  | none => false
  | some s => s ≠ ""

/-- Stable insertion into a sorted list: the new element goes after every
element ≤-below-or-equal to it, as Python's stable `list.sort` arranges. -/
def sInsert (le : α → α → Bool) (x : α) : List α → List α
  | [] => [x]
  | y :: ys => if le y x then y :: sInsert le x ys else x :: y :: ys

/-- Python's stable `sorted` / `list.sort` (unique stable sort for a total
preorder), as an insertion sort. -/
def pySortStable (le : α → α → Bool) (l : List α) : List α :=
  l.foldl (fun acc x => sInsert le x acc) []

/-- `continuity._validate_missing_entities`. -/
def validateMissingEntities (plan : PlanA) (sp : ShotPlanA) : List QAIssue :=
  let character_ids := plan.characters.map (·.character_id)
  let location_ids := plan.locations.map (·.location_id)
  let scene_ids := plan.scenes.map (·.scene_id)
  sp.shots.flatMap (fun shot =>
    (if scene_ids.contains shot.scene_id then [] else
      [⟨.error, "missing_entity",
        "Shot " ++ shot.shot_id ++ " references non-existent scene " ++ shot.scene_id,
        some ("Ensure scene " ++ shot.scene_id ++ " exists in plan"),
        some shot.shot_id⟩]) ++
    (if location_ids.contains shot.location_id then [] else
      [⟨.error, "missing_entity",
        "Shot " ++ shot.shot_id ++ " references non-existent location " ++ shot.location_id,
        some ("Ensure location " ++ shot.location_id ++ " exists in plan"),
        some shot.shot_id⟩]) ++
    shot.characters.flatMap (fun char_id =>
      if character_ids.contains char_id then [] else
        [⟨.error, "missing_entity",
          "Shot " ++ shot.shot_id ++ " references non-existent character " ++ char_id,
          some ("Ensure character " ++ char_id ++ " exists in plan"),
          some shot.shot_id⟩]))

/-- `continuity._validate_uniqueness_and_order`.  Python's `dict` grouping by
scene id preserves first-occurrence key order and per-key insertion order,
which `eraseDups` of the scene ids plus an order-preserving `filter` mirrors.
The duplicate-id and index-list details interpolated into messages are elided
(Python renders a nondeterministically ordered `set` there). -/
def validateUniquenessAndOrder (sp : ShotPlanA) : List QAIssue :=
  let shot_ids := sp.shots.map (·.shot_id)
  let dupIssues :=
    if shot_ids.length ≠ shot_ids.eraseDups.length then
      [⟨.error, "uniqueness", "Duplicate shot IDs found",
        some "Ensure all shot IDs are unique", none⟩]
    else []
  let sceneKeys := (sp.shots.map (·.scene_id)).eraseDups
  let orderIssues := sceneKeys.flatMap (fun sid =>
    let shots := sp.shots.filter (·.scene_id == sid)
    let indices := shots.map (·.shot_index_in_scene)
    let expected := (List.range shots.length).map (fun i => (i : Int))
    if pySortStable (fun a b => a ≤ b) indices ≠ expected then
      [⟨.warning, "order",
        "Shot indices in scene " ++ sid ++ " are not sequential",
        some ("Ensure shot_index_in_scene is 0, 1, 2, ... within scene " ++ sid),
        none⟩]
    else [])
  dupIssues ++ orderIssues

/-- `continuity._validate_required_fields`. -/
def validateRequiredFields (sp : ShotPlanA) : List QAIssue :=
  sp.shots.flatMap (fun shot =>
    (if shot.continuity_lock == "" || pyStrip shot.continuity_lock == "" then
      [⟨.error, "missing_field",
        "Shot " ++ shot.shot_id ++ " is missing continuity_lock",
        some "Add continuity_lock describing critical constraints for this shot",
        some shot.shot_id⟩]
    else []) ++
    (match shot.negative_prompt with
      | none =>
        [⟨.warning, "missing_field",
          "Shot " ++ shot.shot_id ++ " has no negative_prompt",
          some "Add negative_prompt to avoid unwanted elements",
          some shot.shot_id⟩]
      | some _ => []))

/-- Python `set(a) == set(b)` for string lists. -/
def listSetEqB (a b : List String) : Bool :=
  a.all (b.contains ·) && b.all (a.contains ·)

/-- `continuity._validate_state_continuity`. -/
def validateStateContinuity (sp : ShotPlanA) : List QAIssue :=
  let sceneKeys := (sp.shots.map (·.scene_id)).eraseDups
  sceneKeys.flatMap (fun sid =>
    let shots := pySortStable
      (fun a b => a.shot_index_in_scene ≤ b.shot_index_in_scene)
      (sp.shots.filter (·.scene_id == sid))
    (shots.zip shots.tail).flatMap (fun pair =>
      let cur := pair.1
      let nxt := pair.2
      let t1 := cur.state_out.time_of_day
      let t2 := nxt.state_in.time_of_day
      let w1 := cur.state_out.weather
      let w2 := nxt.state_in.weather
      (if truthyStr t1 && truthyStr t2 && t1 ≠ t2 then
        [⟨.warning, "state_conflict",
          "Time of day changes unexpectedly between " ++ cur.shot_id
            ++ " and " ++ nxt.shot_id,
          some "Ensure time_of_day remains consistent within scene or add transition",
          some nxt.shot_id⟩]
      else []) ++
      (if truthyStr w1 && truthyStr w2 && w1 ≠ w2 then
        [⟨.warning, "state_conflict",
          "Weather changes unexpectedly between " ++ cur.shot_id
            ++ " and " ++ nxt.shot_id,
          some "Ensure weather remains consistent within scene",
          some nxt.shot_id⟩]
      else []) ++
      (if listSetEqB cur.state_out.props_held nxt.state_in.props_held then []
      else
        [⟨.info, "state_conflict",
          "Props held changes between " ++ cur.shot_id ++ " and " ++ nxt.shot_id,
          some "Ensure props changes are explained in action_beats",
          some nxt.shot_id⟩])))

/-- `continuity.validate_shot_plan`.  The external LLM critic
(`_run_llm_critic`, which already absorbs service failures into `[]`) is an
oracle parameter. -/
def validate_shot_plan (critic : PlanA → ShotPlanA → List QAIssue)
    (plan : PlanA) (sp : ShotPlanA) (use_llm_critic : Bool) : List QAIssue :=
  let issues := validateMissingEntities plan sp ++ validateUniquenessAndOrder sp
    ++ validateRequiredFields sp ++ validateStateContinuity sp
  if use_llm_critic && issues.length < 10 then issues ++ critic plan sp
  else issues

/-- `config.MAX_REPAIR_ITERATIONS`. -/
def MAX_REPAIR_ITERATIONS : Nat := 2

/-- Python `issue.severity == "error"`. -/
def severityIsError (i : QAIssue) : Bool := i.severity == .error

/-- Body of `pipeline._validate_and_repair_shot_plan`'s `for iteration in
range(MAX_REPAIR_ITERATIONS)` loop.  `repairFn` is the oracle for
`continuity.repair_shot_plan` composed with `_parse_shot_plan_result`
(`none` models a repair failure).  Alongside the resulting shot plan, the
embedding reports the number of repair calls performed and the
`use_llm_critic` flag passed to each validation, for stating the claim. -/
def validateAndRepairAux (critic : PlanA → ShotPlanA → List QAIssue)
    (repairFn : ShotPlanA → List QAIssue → Option ShotPlanA) (plan : PlanA) :
    Nat → Nat → ShotPlanA → ShotPlanA × Nat × List Bool
  | 0, _, sp => (sp, 0, [])
  | fuel + 1, iter, sp =>
    let useCritic := iter == 0
    let issues := validate_shot_plan critic plan sp useCritic
    let errors := issues.filter severityIsError
    if errors.isEmpty then (sp, 0, [useCritic])
    else
      match repairFn sp errors with
      | none => (sp, 1, [useCritic])
      | some sp2 =>
        let r := validateAndRepairAux critic repairFn plan fuel (iter + 1) sp2
        (r.1, r.2.1 + 1, useCritic :: r.2.2)

/-- `pipeline._validate_and_repair_shot_plan`. -/
def validate_and_repair_shot_plan (critic : PlanA → ShotPlanA → List QAIssue)
    (repairFn : ShotPlanA → List QAIssue → Option ShotPlanA)
    (plan : PlanA) (sp : ShotPlanA) : ShotPlanA × Nat × List Bool :=
  validateAndRepairAux critic repairFn plan MAX_REPAIR_ITERATIONS 0 sp

/-- Sample plan with no entities, for concrete evaluations. -/
def planW : PlanA := ⟨"plan_w", 1, [], [], []⟩

/-- Sample shot plan with no shots: validation finds nothing. -/
def spCleanW : ShotPlanA := ⟨"sp_w", 1, "plan_w", 1, []⟩

/-- Sample shot with an empty continuity lock and dangling references:
validation always reports errors for it. -/
def shotBadW : Shot :=
  { shot_id := "S001", scene_id := "SC001", shot_index_in_scene := 0,
    location_id := "LOC_01", continuity_lock := "" }

/-- Sample persistently broken shot plan. -/
def spBadW : ShotPlanA := ⟨"sp_w", 1, "plan_w", 1, [shotBadW]⟩

/-! ## Patch engine (`plan_editing.apply_patches`)

The engine mutates a Python object graph in place, so it is embedded over an
explicit heap: immutable scalars are atoms, mutable dicts and lists live at
heap addresses.  `plan.model_dump()` is a deep copy into fresh addresses; the
caller's graph stays below the old heap length and claim C3 is the statement
that nothing below that length is ever written. -/

inductive JAtom where
  | null
  | bool (b : Bool)
  | int (n : Int)
  | str (s : String)
deriving DecidableEq

/-- A Python value: an immutable scalar or a reference to a mutable object. -/
inductive PyVal where
  | atom (a : JAtom)
  | ref (addr : Nat)
deriving DecidableEq

/-- A mutable Python container as stored in the heap. -/
inductive PyObj where
  | dict (fields : List (String × PyVal))
  | list (items : List PyVal)
deriving DecidableEq

abbrev Heap := List PyObj

def hSet (h : Heap) (a : Nat) (o : PyObj) : Heap := h.set a o

def hAlloc (h : Heap) (o : PyObj) : Heap × Nat := (h ++ [o], h.length)

/-- Pure JSON tree, used for patch `value` payloads (which arrive by wire and
alias nothing in the plan) and for reading a heap graph back out. -/
inductive Json where
  | atom (a : JAtom)
  | arr (xs : List Json)
  | obj (fields : List (String × Json))

def alistHas {α : Type} (l : List (String × α)) (k : String) : Bool :=
  l.any (fun p => p.1 == k)

/-- Python `del d[k]`. -/
def alistDel {α : Type} (l : List (String × α)) (k : String) :
    List (String × α) :=
  l.filter (fun p => !(p.1 == k))

/-- State-threading map over list elements (the heap is the state). -/
def stMapVals (f : Heap → PyVal → Option (Heap × PyVal)) :
    Heap → List PyVal → Option (Heap × List PyVal)
  | h, [] => some (h, [])
  | h, v :: vs =>
    match f h v with
    | none => none
    | some (h1, v') =>
      match stMapVals f h1 vs with
      | none => none
      | some (h2, vs') => some (h2, v' :: vs')

/-- State-threading map over dict fields. -/
def stMapFields (f : Heap → PyVal → Option (Heap × PyVal)) :
    Heap → List (String × PyVal) → Option (Heap × List (String × PyVal))
  | h, [] => some (h, [])
  | h, p :: ps =>
    match f h p.2 with
    | none => none
    | some (h1, v') =>
      match stMapFields f h1 ps with
      | none => none
      | some (h2, ps') => some (h2, (p.1, v') :: ps')

/-- State-threading allocation over a list of JSON trees. -/
def stAllocVals (f : Heap → Json → Heap × PyVal) :
    Heap → List Json → Heap × List PyVal
  | h, [] => (h, [])
  | h, x :: xs =>
    let r := f h x
    let r2 := stAllocVals f r.1 xs
    (r2.1, r.2 :: r2.2)

/-- State-threading allocation over JSON object fields. -/
def stAllocFields (f : Heap → Json → Heap × PyVal) :
    Heap → List (String × Json) → Heap × List (String × PyVal)
  | h, [] => (h, [])
  | h, p :: ps =>
    let r := f h p.2
    let r2 := stAllocFields f r.1 ps
    (r2.1, (p.1, r.2) :: r2.2)

/-- Fuel-bounded body of `allocJson`; `sizeOf` of the tree always bounds its
depth, so the fuel-exhausted branches are unreachable from `allocJson`. -/
def allocJsonF : Heap → Nat → Json → Heap × PyVal
  | h, _, .atom a => (h, .atom a)
  | h, 0, .arr _ => (h, .atom .null)
  | h, 0, .obj _ => (h, .atom .null)
  | h, fuel + 1, .arr xs =>
    let r := stAllocVals (fun h' j => allocJsonF h' fuel j) h xs
    let r2 := hAlloc r.1 (.list r.2)
    (r2.1, .ref r2.2)
  | h, fuel + 1, .obj fs =>
    let r := stAllocFields (fun h' j => allocJsonF h' fuel j) h fs
    let r2 := hAlloc r.1 (.dict r.2)
    (r2.1, .ref r2.2)

mutual

/-- Structural size of a JSON tree, used as fuel for `allocJsonF`. -/
def jsonFuel : Json → Nat
  | .atom _ => 1
  | .arr xs => 1 + jsonFuelList xs
  | .obj fs => 1 + jsonFuelFields fs

def jsonFuelList : List Json → Nat
  | [] => 0
  | x :: xs => jsonFuel x + jsonFuelList xs

def jsonFuelFields : List (String × Json) → Nat
  | [] => 0
  | p :: ps => jsonFuel p.2 + jsonFuelFields ps

end

/-- Allocate a fresh object graph for a JSON tree (how a parsed request value
enters the heap when stored). -/
def allocJson (h : Heap) (j : Json) : Heap × PyVal := allocJsonF h (jsonFuel j) j

/-- `plan.model_dump()`: a deep copy of the graph reachable from a value into
fresh addresses (pydantic rebuilds fresh dicts/lists; scalars are shared but
immutable).  Fuel-based: the heaps built here are finite and acyclic, so any
fuel past the graph depth succeeds. -/
def copyVal : Heap → Nat → PyVal → Option (Heap × PyVal)
  | h, _, .atom a => some (h, .atom a)
  | _, 0, .ref _ => none
  | h, fuel + 1, .ref a =>
    match h[a]? with
    | none => none
    | some (.dict flds) =>
      match stMapFields (fun h' v => copyVal h' fuel v) h flds with
      | none => none
      | some (h1, flds') =>
        let r := hAlloc h1 (.dict flds')
        some (r.1, .ref r.2)
    | some (.list items) =>
      match stMapVals (fun h' v => copyVal h' fuel v) h items with
      | none => none
      | some (h1, items') =>
        let r := hAlloc h1 (.list items')
        some (r.1, .ref r.2)

mutual
/-- Read the graph at a value back into a JSON tree (how `PlanAsset(**d)`
consumes the working dict).  Fuel-based for the same reason as `copyVal`. -/
def readback : Heap → Nat → PyVal → Option Json
  | _, _, .atom a => some (.atom a)
  | _, 0, .ref _ => none
  | h, fuel + 1, .ref a =>
    match h[a]? with
    | none => none
    | some (.dict flds) => (readbackFields h fuel flds).map Json.obj
    | some (.list items) => (readbackList h fuel items).map Json.arr

def readbackList : Heap → Nat → List PyVal → Option (List Json)
  | _, _, [] => some []
  | h, fuel, v :: vs =>
    match readback h fuel v with
    | none => none
    | some j => (readbackList h fuel vs).map (j :: ·)

def readbackFields : Heap → Nat → List (String × PyVal) →
    Option (List (String × Json))
  | _, _, [] => some []
  | h, fuel, f :: fs =>
    match readback h fuel f.2 with
    | none => none
    | some j => (readbackFields h fuel fs).map ((f.1, j) :: ·)
end

/-- One parsed path segment, as `plan_editing._parse_path` produces them:
a plain string (dict key), an int (list index), or a `(list_key, item_id)`
pair (identity lookup). -/
inductive PathPart where
  | field (name : String)
  | idx (i : Nat)
  | idLookup (listKey : String) (itemId : String)
deriving DecidableEq

/-- The failure modes `_apply_single_patch` can raise.  The source raises
untyped built-ins: `targetNotFound` is its `ValueError("Item with ID ...
not found ...")`, `cannotAdd` its `ValueError("Cannot add to path ...")`,
`pathError` the `ValueError` out of `path.index(']')` (or the unbound
`list_key`), and `keyError` / `indexError` / `typeError` the corresponding
Python built-in exceptions on shape mismatches. -/
inductive PatchErr where
  | targetNotFound (listKey itemId : String)
  | cannotAdd (path : String)
  | pathError
  | keyError
  | indexError
  | typeError
deriving DecidableEq

/-- `path.index(']', i)`: split at the first `]`, none when unbalanced. -/
def splitAtClose : List Char → Option (List Char × List Char)
  | [] => none
  | c :: rest =>
    if c = ']' then some ([], rest)
    else
      match splitAtClose rest with
      | none => none
      | some (content, r) => some (c :: content, r)

/-- The character loop of `plan_editing._parse_path`: `current` accumulates a
field name, `listKey` is Python's `list_key` local (unbound until the first
`[`), and `parts` is built in order.  The fuel argument only bounds the
recursion (each step consumes at least one character, so `s.length` fuel
always suffices); it keeps the function structurally recursive. -/
def parsePathAux : Nat → List Char → String → Option String → List PathPart →
    Except PatchErr (List PathPart)
  | _, [], current, _, parts =>
    .ok (if current ≠ "" then parts ++ [.field current] else parts)
  | 0, _ :: _, _, _, _ => .error .pathError
  | fuel + 1, c :: rest, current, listKey, parts =>
    if c = '.' then
      parsePathAux fuel rest "" listKey
        (if current ≠ "" then parts ++ [.field current] else parts)
    else if c = '[' then
      let lk := if current ≠ "" then some current else listKey
      match splitAtClose rest with
      | none => .error .pathError
      | some (content, rest') =>
        match lk with
        | none => .error .pathError
        | some k =>
          if pyIsDigitStr content then
            parsePathAux fuel rest' "" lk
              (parts ++ [.field k, .idx (natOfDigitChars content)])
          else
            parsePathAux fuel rest' "" lk
              (parts ++ [.idLookup k (String.mk content)])
    else
      parsePathAux fuel rest (current.push c) listKey parts

/-- `plan_editing._parse_path`. -/
def parse_path (path : String) : Except PatchErr (List PathPart) :=
  parsePathAux path.data.length path.data "" none []

/-- `plan_editing._get_id_field_for_list`. -/
def get_id_field_for_list (k : String) : String :=
  if k = "characters" then "character_id"
  else if k = "locations" then "location_id"
  else if k = "props_wardrobe" then "prop_id"
  else if k = "scenes" then "scene_id"
  else "id"

/-- Python `item.get(id_field) == item_id` for a dict item (a missing or
non-string id field never equals the string token). -/
def matchesId (flds : List (String × PyVal)) (idField itemId : String) : Bool :=
  match alistGet flds idField with
  | some (.atom (.str s)) => s == itemId
  | _ => false

/-- The `for item in items: if item.get(id_field) == item_id: found = item`
navigation loop: first match wins; a non-dict item reached before any match
raises (AttributeError on `.get`); no match at all is the
`raise ValueError(f"Item with ID ...")`. -/
def findById (h : Heap) (listKey idField itemId : String) :
    List PyVal → Except PatchErr PyVal
  | [] => .error (.targetNotFound listKey itemId)
  | item :: rest =>
    match item with
    | .ref a =>
      match h[a]? with
      | some (.dict flds) =>
        if matchesId flds idField itemId then .ok item
        else findById h listKey idField itemId rest
      | _ => .error .typeError
    | .atom _ => .error .typeError

/-- Python substring test `needle in hay`. -/
def strContains (needle : List Char) : List Char → Bool
  | [] => needle.isEmpty
  | c :: rest => needle.isPrefixOf (c :: rest) || strContains needle rest

/-- One step of the navigation loop over `parts[:-1]` in
`_apply_single_patch`: dict keys auto-create missing empty dicts, int parts
index lists (or a string — Python string indexing returns a 1-character
string), identity parts search the named collection.  Shape mismatches raise
the corresponding Python built-ins. -/
def navOne (h : Heap) (cur : PyVal) : PathPart → Heap × Except PatchErr PyVal
  | .field k =>
    match cur with
    | .ref a =>
      match h[a]? with
      | some (.dict flds) =>
        match alistGet flds k with
        | some v => (h, .ok v)
        | none =>
          let r := hAlloc h (.dict [])
          (hSet r.1 a (.dict (alistSet flds k (.ref r.2))), .ok (.ref r.2))
      | some (.list _) => (h, .error .typeError)
      | none => (h, .error .typeError)
    | .atom _ => (h, .error .typeError)
  | .idx i =>
    match cur with
    | .ref a =>
      match h[a]? with
      | some (.list items) =>
        match items[i]? with
        | some v => (h, .ok v)
        | none => (h, .error .indexError)
      | some (.dict _) => (h, .error .keyError)
      | none => (h, .error .typeError)
    | .atom (.str s) =>
      match s.data[i]? with
      | some c => (h, .ok (.atom (.str (String.mk [c]))))
      | none => (h, .error .indexError)
    | .atom _ => (h, .error .typeError)
  | .idLookup k tok =>
    match cur with
    | .ref a =>
      match h[a]? with
      | some (.dict flds) =>
        match alistGet flds k with
        | some (.ref la) =>
          match h[la]? with
          | some (.list items) =>
            (h, findById h k (get_id_field_for_list k) tok items)
          | _ => (h, .error .typeError)
        | some (.atom _) => (h, .error .typeError)
        | none => (h, .error (.targetNotFound k tok))
      | _ => (h, .error .typeError)
    | .atom _ => (h, .error .typeError)

/-- The whole `for part in parts[:-1]` loop. -/
def navParts (h : Heap) (cur : PyVal) : List PathPart → Heap × Except PatchErr PyVal
  | [] => (h, .ok cur)
  | p :: ps =>
    match navOne h cur p with
    | (h1, .ok v) => navParts h1 v ps
    | (h1, .error e) => (h1, .error e)

/-- The `for i, item in enumerate(items)` scan of the replace-by-identity
branch: the index of the first match, `none` (and no error!) when nothing
matches, an error when a non-dict item is reached first. -/
def replaceByIdScan (h : Heap) (idField itemId : String) :
    List PyVal → Except PatchErr (Option Nat)
  | [] => .ok none
  | item :: rest =>
    match item with
    | .ref a =>
      match h[a]? with
      | some (.dict flds) =>
        if matchesId flds idField itemId then .ok (some 0)
        else (replaceByIdScan h idField itemId rest).map (Option.map (· + 1))
      | _ => .error .typeError
    | .atom _ => .error .typeError

/-- The `[item for item in items if item.get(id_field) != item_id]`
comprehension of the remove-by-identity branch: evaluates `.get` on every
item, so any non-dict item raises. -/
def filterById (h : Heap) (idField itemId : String) :
    List PyVal → Except PatchErr (List PyVal)
  | [] => .ok []
  | item :: rest =>
    match item with
    | .ref a =>
      match h[a]? with
      | some (.dict flds) =>
        match filterById h idField itemId rest with
        | .error e => .error e
        | .ok kept =>
          .ok (if matchesId flds idField itemId then kept else item :: kept)
      | _ => .error .typeError
    | .atom _ => .error .typeError

/-- The final-segment dispatch of `_apply_single_patch`: the `if op ==
"replace" / elif "add" / elif "remove"` chain.  Any other op string matches no
branch and the function returns with no effect and no error. -/
def applyFinal (h : Heap) (cur : PyVal) (finalPart : PathPart) (op : String)
    (value : Json) (path : String) : Heap × Option PatchErr :=
  if op = "replace" then
    match finalPart with
    | .field k =>
      match cur with
      | .ref a =>
        match h[a]? with
        | some (.dict flds) =>
          let r := allocJson h value
          (hSet r.1 a (.dict (alistSet flds k r.2)), none)
        | _ => (h, some .typeError)
      | .atom _ => (h, some .typeError)
    | .idx i =>
      match cur with
      | .ref a =>
        match h[a]? with
        | some (.list items) =>
          if i < items.length then
            let r := allocJson h value
            (hSet r.1 a (.list (items.set i r.2)), none)
          else (h, some .indexError)
        | _ => (h, some .typeError)
      | .atom _ => (h, some .typeError)
    | .idLookup k tok =>
      match cur with
      | .ref a =>
        match h[a]? with
        | some (.dict flds) =>
          match alistGet flds k with
          | some (.ref la) =>
            match h[la]? with
            | some (.list items) =>
              match replaceByIdScan h (get_id_field_for_list k) tok items with
              | .error e => (h, some e)
              | .ok none => (h, none)
              | .ok (some i) =>
                let r := allocJson h value
                (hSet r.1 la (.list (items.set i r.2)), none)
            | _ => (h, some .typeError)
          | some (.atom _) => (h, some .typeError)
          | none => (h, none)
        | _ => (h, some .typeError)
      | .atom _ => (h, some .typeError)
  else if op = "add" then
    match finalPart with
    | .field k =>
      match cur with
      | .ref a =>
        match h[a]? with
        | some (.dict flds) =>
          match alistGet flds k with
          | none => (h, some .keyError)
          | some (.ref ca) =>
            match h[ca]? with
            | some (.list items) =>
              let r := allocJson h value
              (hSet r.1 ca (.list (items ++ [r.2])), none)
            | some (.dict _) =>
              let r := allocJson h value
              (hSet r.1 a (.dict (alistSet flds k r.2)), none)
            | none => (h, some .typeError)
          | some (.atom _) =>
            let r := allocJson h value
            (hSet r.1 a (.dict (alistSet flds k r.2)), none)
        | _ => (h, some .typeError)
      | .atom _ => (h, some .typeError)
    | .idx _ => (h, some (.cannotAdd path))
    | .idLookup _ _ => (h, some (.cannotAdd path))
  else if op = "remove" then
    match finalPart with
    | .field k =>
      match cur with
      | .ref a =>
        match h[a]? with
        | some (.dict flds) =>
          if alistHas flds k then (hSet h a (.dict (alistDel flds k)), none)
          else (h, none)
        | some (.list items) =>
          if items.contains (.atom (.str k)) then (h, some .typeError)
          else (h, none)
        | none => (h, some .typeError)
      | .atom (.str s) =>
        if strContains k.data s.data then (h, some .typeError) else (h, none)
      | .atom _ => (h, some .typeError)
    | .idx i =>
      match cur with
      | .ref a =>
        match h[a]? with
        | some (.list items) =>
          if i < items.length then (hSet h a (.list (items.eraseIdx i)), none)
          else (h, some .indexError)
        | some (.dict _) => (h, some .keyError)
        | none => (h, some .typeError)
      | .atom _ => (h, some .typeError)
    | .idLookup k tok =>
      match cur with
      | .ref a =>
        match h[a]? with
        | some (.dict flds) =>
          match alistGet flds k with
          | some (.ref la) =>
            match h[la]? with
            | some (.list items) =>
              match filterById h (get_id_field_for_list k) tok items with
              | .error e => (h, some e)
              | .ok kept =>
                let r := hAlloc h (.list kept)
                (hSet r.1 a (.dict (alistSet flds k (.ref r.2))), none)
            | _ => (h, some .typeError)
          | some (.atom _) => (h, some .typeError)
          | none =>
            let r := hAlloc h (.list [])
            (hSet r.1 a (.dict (alistSet flds k (.ref r.2))), none)
        | _ => (h, some .typeError)
      | .atom _ => (h, some .typeError)
  else (h, none)

/-- A patch operation as received on the wire, with the `patch.get` defaults
of `apply_patches`. -/
structure Patch where
  path : String := ""
  op : String := "replace"
  value : Json := .atom .null

/-- `plan_editing._apply_single_patch`, returning the heap state at exit
together with the exception raised, if any. -/
def applySinglePatch (h : Heap) (root : Nat) (p : Patch) :
    Heap × Option PatchErr :=
  if p.path = "" then (h, none)
  else
    match parse_path p.path with
    | .error e => (h, some e)
    | .ok parts =>
      match parts.getLast? with
      | none => (h, some .indexError)
      | some finalPart =>
        match navParts h (.ref root) parts.dropLast with
        | (h1, .error e) => (h1, some e)
        | (h1, .ok cur) => applyFinal h1 cur finalPart p.op p.value p.path

/-- The `for patch in patches` loop of `apply_patches`: an exception aborts
the remaining patches. -/
def applyPatchList (h : Heap) (root : Nat) : List Patch → Heap × Option PatchErr
  | [] => (h, none)
  | p :: ps =>
    match applySinglePatch h root p with
    | (h1, none) => applyPatchList h1 root ps
    | (h1, some e) => (h1, some e)

/-- `plan_editing.apply_patches`: deep-copy the plan's graph
(`plan.model_dump()`), run every patch against the copy's root, and return
the final heap, the working root, and the exception if one was raised
(`none` from the outer `Option` only when the copy fuel is too small, which
never happens for adequate fuel). -/
def apply_patches (copyFuel : Nat) (h0 : Heap) (planRoot : Nat)
    (patches : List Patch) : Option (Heap × Nat × Option PatchErr) :=
  match copyVal h0 copyFuel (.ref planRoot) with
  | none => none
  | some (h1, .ref r) =>
    let res := applyPatchList h1 r patches
    some (res.1, r, res.2)
  | some (_, .atom _) => none

/-! ### Heap region predicates -/

/-- Every reference inside the value points at or above `n`. -/
def valHighB (n : Nat) : PyVal → Bool
  | .atom _ => true
  | .ref a => n ≤ a

def objHighB (n : Nat) : PyObj → Bool
  | .dict flds => flds.all (fun p => valHighB n p.2)
  | .list items => items.all (valHighB n)

/-- Every reference inside the value points strictly below `n`. -/
def valLowB (n : Nat) : PyVal → Bool
  | .atom _ => true
  | .ref a => a < n

def objLowB (n : Nat) : PyObj → Bool
  | .dict flds => flds.all (fun p => valLowB n p.2)
  | .list items => items.all (valLowB n)

/-- A self-contained heap: every stored reference is a valid address. -/
def heapClosedB (h : Heap) : Bool := h.all (objLowB h.length)

/-- The heaps agree at every address below `n`. -/
def AgreesBelow (n : Nat) (h h' : Heap) : Prop := ∀ a, a < n → h'[a]? = h[a]?

/-- Every object at or above `n` only references at or above `n`. -/
def HighClosed (n : Nat) (h : Heap) : Prop :=
  ∀ a o, n ≤ a → h[a]? = some o → objHighB n o = true

/-- The patch-engine frame invariant over the initial heap `h0` of length
`n`: the caller's region is untouched and the working region never points
back into it. -/
def HeapInv (n : Nat) (h0 h : Heap) : Prop :=
  AgreesBelow n h0 h ∧ n ≤ h.length ∧ HighClosed n h

/-! ### Codec lemmas -/

theorem rsplitV_eq_none_of_no_underscore {s : List Char}
    (h : ∀ c ∈ s, c ≠ '_') : rsplitV s = none := by
  induction s with
  | nil => rfl
  | cons c rest ih =>
    have hrest : rsplitV rest = none := ih (fun c hc => h c (List.mem_cons_of_mem _ hc))
    have hc : c ≠ '_' := h c (List.mem_cons_self _ _)
    simp [rsplitV, hrest, hc]

theorem rsplitV_cons_v_eq_none {post : List Char}
    (h : rsplitV post = none) : rsplitV ('v' :: post) = none := by
  simp [rsplitV, h]

theorem rsplitV_append {post : List Char} (sid : List Char)
    (h : rsplitV post = none) :
    rsplitV (sid ++ '_' :: 'v' :: post) = some (sid, post) := by
  induction sid with
  | nil =>
    simp only [List.nil_append]
    rw [rsplitV, rsplitV_cons_v_eq_none h]
    simp
  | cons c rest ih =>
    simp only [List.cons_append]
    rw [rsplitV, ih]

theorem rsplitV_some_decomp {s pre post : List Char}
    (h : rsplitV s = some (pre, post)) :
    s = pre ++ '_' :: 'v' :: post ∧ rsplitV post = none := by
  induction s generalizing pre post with
  | nil => simp [rsplitV] at h
  | cons c rest ih =>
    rw [rsplitV] at h
    cases hr : rsplitV rest with
    | some pq =>
      obtain ⟨p, q⟩ := pq
      rw [hr] at h
      simp only [Option.some.injEq, Prod.mk.injEq] at h
      obtain ⟨h1, h2⟩ := h
      obtain ⟨hd, hn⟩ := ih hr
      subst h2
      constructor
      · rw [← h1, hd]; rfl
      · exact hn
    | none =>
      rw [hr] at h
      by_cases hcond : c = '_' ∧ rest.head? = some 'v'
      · rw [if_pos hcond] at h
        obtain ⟨hc, hhd⟩ := hcond
        subst hc
        simp only [Option.some.injEq, Prod.mk.injEq] at h
        obtain ⟨h1, h2⟩ := h
        cases rest with
        | nil => simp at hhd
        | cons r0 rtl =>
          simp only [List.head?_cons, Option.some.injEq] at hhd
          subst hhd
          simp only [List.tail_cons] at h2
          subst h2
          subst h1
          refine ⟨rfl, ?_⟩
          rw [rsplitV] at hr
          cases hq : rsplitV rtl with
          | some pq => rw [hq] at hr; simp at hr
          | none => rfl
      · rw [if_neg hcond] at h
        exact absurd h (by simp)

theorem digitChar_pyDigit {d : Nat} (h : d < 10) : pyDigit (digitChar d) = true := by
  interval_cases d <;> rfl

theorem digitChar_ne_underscore {d : Nat} (h : d < 10) : digitChar d ≠ '_' := by
  interval_cases d <;> decide

theorem digitToNat_digitChar {d : Nat} (h : d < 10) : digitToNat (digitChar d) = d := by
  interval_cases d <;> rfl

theorem natToCharsAux_eq_digits (fuel : Nat) :
    ∀ n acc, n ≠ 0 → n < 10 ^ fuel →
      natToCharsAux fuel n acc = ((Nat.digits 10 n).reverse).map digitChar ++ acc := by
  induction fuel with
  | zero => intro n acc hn hlt; simp at hlt; omega
  | succ fuel ih =>
    intro n acc hn hlt
    rw [natToCharsAux]
    by_cases hsmall : n < 10
    · rw [if_pos hsmall]
      have hdig : Nat.digits 10 n = [n % 10] := by
        rw [Nat.digits_def' (by norm_num : (1:Nat) < 10) (Nat.pos_of_ne_zero hn)]
        have : n / 10 = 0 := Nat.div_eq_of_lt hsmall
        rw [this]
        simp
      rw [hdig]
      simp
    · rw [if_neg hsmall]
      have hq : n / 10 ≠ 0 := by
        intro hc
        have := Nat.div_eq_of_lt (by omega : n < 10)
        omega
      have hqlt : n / 10 < 10 ^ fuel := by
        rw [Nat.div_lt_iff_lt_mul (by norm_num : (0:Nat) < 10)]
        calc n < 10 ^ (fuel + 1) := hlt
        _ = 10 ^ fuel * 10 := by ring
      rw [ih (n / 10) _ hq hqlt]
      rw [Nat.digits_def' (by norm_num : (1:Nat) < 10) (Nat.pos_of_ne_zero hn)]
      simp [List.reverse_cons, List.map_append]

theorem natToChars_eq_digits {n : Nat} (hn : n ≠ 0) :
    natToChars n = ((Nat.digits 10 n).reverse).map digitChar := by
  unfold natToChars
  rw [natToCharsAux_eq_digits (n + 1) n [] hn]
  · simp
  · calc n < 10 ^ n := Nat.lt_pow_self (by norm_num) n
    _ ≤ 10 ^ (n + 1) := Nat.pow_le_pow_right (by norm_num) (Nat.le_succ n)

theorem natToChars_zero : natToChars 0 = ['0'] := rfl

theorem natToChars_all_digit (n : Nat) : ∀ c ∈ natToChars n, pyDigit c = true := by
  intro c hc
  by_cases h0 : n = 0
  · subst h0; rw [natToChars_zero] at hc; simp at hc; subst hc; rfl
  · rw [natToChars_eq_digits h0] at hc
    simp only [List.mem_map, List.mem_reverse] at hc
    obtain ⟨d, hd, rfl⟩ := hc
    exact digitChar_pyDigit (Nat.digits_lt_base (by norm_num) hd)

theorem natToChars_ne_nil (n : Nat) : natToChars n ≠ [] := by
  by_cases h0 : n = 0
  · subst h0; rw [natToChars_zero]; simp
  · rw [natToChars_eq_digits h0]
    simp only [ne_eq, List.map_eq_nil_iff, List.reverse_eq_nil_iff]
    exact Nat.digits_ne_nil_iff_ne_zero.mpr h0

theorem pyIsDigitStr_natToChars (n : Nat) : pyIsDigitStr (natToChars n) = true := by
  unfold pyIsDigitStr
  rw [Bool.and_eq_true, List.all_eq_true]
  constructor
  · cases h : natToChars n with
    | nil => exact absurd h (natToChars_ne_nil n)
    | cons a l => simp [List.isEmpty]
  · exact fun c hc => natToChars_all_digit n c hc

theorem foldl_base_shift (L : List Nat) (hL : ∀ d ∈ L, d < 10) (a : Nat) :
    (L.map digitChar).foldl (fun acc c => acc * 10 + digitToNat c) a =
      L.foldl (fun acc d => acc * 10 + d) a := by
  induction L generalizing a with
  | nil => rfl
  | cons d tl ih =>
    simp only [List.map_cons, List.foldl_cons]
    rw [digitToNat_digitChar (hL d (List.mem_cons_self _ _))]
    exact ih (fun x hx => hL x (List.mem_cons_of_mem _ hx)) _

theorem foldl_reverse_ofDigits (L : List Nat) (a : Nat) :
    L.reverse.foldl (fun acc d => acc * 10 + d) a =
      a * 10 ^ L.length + Nat.ofDigits 10 L := by
  induction L generalizing a with
  | nil => simp [Nat.ofDigits_nil]
  | cons d tl ih =>
    rw [List.reverse_cons, List.foldl_append, ih]
    simp only [List.foldl_cons, List.foldl_nil, Nat.ofDigits_cons, List.length_cons]
    ring

theorem natOfDigitChars_natToChars (n : Nat) : natOfDigitChars (natToChars n) = n := by
  by_cases h0 : n = 0
  · subst h0; rfl
  · rw [natToChars_eq_digits h0]
    unfold natOfDigitChars
    rw [foldl_base_shift _
      (fun d hd => Nat.digits_lt_base (by norm_num) (List.mem_reverse.mp hd))]
    rw [foldl_reverse_ofDigits]
    simp [Nat.ofDigits_digits]

/-- Universal round trip at character-list level: the separator appended by
`build_asset_id` is always the last `_v` occurrence, and its digit suffix
parses back. -/
theorem parse_build_chars (sid : List Char) (v : Nat) :
    parse_asset_id_chars (build_asset_id_chars sid v) = (sid, v) := by
  have hnone : rsplitV (natToChars v) = none := by
    apply rsplitV_eq_none_of_no_underscore
    intro c hc
    have := natToChars_all_digit v c hc
    intro h
    rw [h] at this
    exact absurd this (by decide)
  unfold build_asset_id_chars parse_asset_id_chars
  rw [rsplitV_append sid hnone]
  simp only [pyIsDigitStr_natToChars, if_true]
  rw [natOfDigitChars_natToChars]

theorem String_mk_data (s : String) : String.mk s.data = s := rfl

/-- C6: for every stable id not containing the `_v` separator followed by a
digit, and every positive version `v`,
`parse_asset_id (build_asset_id id v) = (id, v)`; in particular
`parse_asset_id "plan_7f3a_v2" = ("plan_7f3a", 2)`. -/
theorem claim_C6_codec_roundtrip :
    (∀ (sid : String) (v : Nat), vSepDigits sid.data = false → 0 < v →
      parse_asset_id (build_asset_id sid v) = (sid, v)) ∧
    parse_asset_id "plan_7f3a_v2" = ("plan_7f3a", 2) := by
  constructor
  · intro sid v _ _
    unfold parse_asset_id build_asset_id
    have h : (String.mk (build_asset_id_chars sid.data v)).data
        = build_asset_id_chars sid.data v := rfl
    rw [h, parse_build_chars]
  · decide

theorem claim_C6_codec_roundtrip_witness :
    vSepDigits ("plan_7f3a" : String).data = false ∧ 0 < 2 ∧
      parse_asset_id (build_asset_id "plan_7f3a" 2) = ("plan_7f3a", 2) :=
  ⟨by decide, by decide,
    claim_C6_codec_roundtrip.1 "plan_7f3a" 2 (by decide) (by decide)⟩

/-- C7: decoding any string with no `_v` occurrence, or whose suffix after the
last `_v` is not purely digits, returns the whole string with version 1;
any string that does match splits at the last `_v` occurrence (nothing after
the split point contains `_v`) and parses the digits as the version.  The
duplicate decoder `pipeline._parse_asset_ref` agrees with `utils.parse_asset_id`
on every input. -/
theorem claim_C7_decode_fallback :
    ∀ s : String,
      parse_asset_ref s = parse_asset_id s ∧
      (rsplitV s.data = none → parse_asset_id s = (s, 1)) ∧
      (∀ pre post, rsplitV s.data = some (pre, post) →
        (s.data = pre ++ '_' :: 'v' :: post ∧ rsplitV post = none) ∧
        (pyIsDigitStr post = false → parse_asset_id s = (s, 1)) ∧
        (pyIsDigitStr post = true →
          parse_asset_id s = (String.mk pre, natOfDigitChars post))) := by
  intro s
  refine ⟨rfl, ?_, ?_⟩
  · intro h
    simp [parse_asset_id, parse_asset_id_chars, h]
  · intro pre post h
    refine ⟨rsplitV_some_decomp h, ?_, ?_⟩
    · intro hd
      simp [parse_asset_id, parse_asset_id_chars, h, hd]
    · intro hd
      simp [parse_asset_id, parse_asset_id_chars, h, hd]

/-! ### Storage lemmas -/

theorem alistGet_set (l : List (String × α)) (k k' : String) (v : α) :
    alistGet (alistSet l k v) k' = if k' = k then some v else alistGet l k' := by
  induction l with
  | nil =>
    by_cases h : k' = k
    · subst h; simp [alistSet, alistGet]
    · have hb : (k == k') = false := by
        rw [beq_eq_false_iff_ne]; exact fun hc => h hc.symm
      simp [alistSet, alistGet, hb, h]
  | cons p tl ih =>
    by_cases hp : p.1 = k
    · rw [alistSet, if_pos hp]
      by_cases h : k' = k
      · subst h; simp [alistGet]
      · have hb : (k == k') = false := by
          rw [beq_eq_false_iff_ne]; exact fun hc => h hc.symm
        have hpb : (p.1 == k') = false := by rw [hp]; exact hb
        simp [alistGet, hb, hpb, h]
    · rw [alistSet, if_neg hp]
      by_cases hpk' : p.1 = k'
      · have h : ¬k' = k := fun hc => hp (hc ▸ hpk')
        have hb : (p.1 == k') = true := by rw [beq_iff_eq]; exact hpk'
        simp [alistGet, hb, h]
      · have hb : (p.1 == k') = false := by rw [beq_eq_false_iff_ne]; exact hpk'
        have hL : List.find? (fun q => q.1 == k') (p :: alistSet tl k v)
            = List.find? (fun q => q.1 == k') (alistSet tl k v) :=
          List.find?_cons_of_neg _ (by simp [hb])
        have hR : List.find? (fun q => q.1 == k') (p :: tl)
            = List.find? (fun q => q.1 == k') tl :=
          List.find?_cons_of_neg _ (by simp [hb])
        simp only [alistGet, hL, hR]
        exact ih

theorem mem_alistSet {l : List (String × α)} {k : String} {v : α} {p : String × α}
    (h : p ∈ alistSet l k v) : p ∈ l ∨ p = (k, v) := by
  induction l with
  | nil => right; simpa [alistSet] using h
  | cons q tl ih =>
    rw [alistSet] at h
    by_cases hq : q.1 = k
    · rw [if_pos hq] at h
      rcases List.mem_cons.mp h with h | h
      · right; exact h
      · left; exact List.mem_cons_of_mem _ h
    · rw [if_neg hq] at h
      rcases List.mem_cons.mp h with h | h
      · left; exact h ▸ List.mem_cons_self _ _
      · rcases ih h with h | h
        · left; exact List.mem_cons_of_mem _ h
        · right; exact h

theorem mem_rangeVersions {v n : Nat} : v ∈ rangeVersions n ↔ 1 ≤ v ∧ v ≤ n := by
  unfold rangeVersions
  simp only [List.mem_map, List.mem_range]
  constructor
  · rintro ⟨i, hi, rfl⟩; omega
  · rintro ⟨h1, h2⟩; exact ⟨v - 1, by omega, by omega⟩

theorem listMax_append_singleton (l : List Nat) (x : Nat) :
    listMax (l ++ [x]) = Nat.max (listMax l) x := by
  unfold listMax
  rw [List.foldl_append]
  rfl

theorem listMax_rangeVersions (n : Nat) : listMax (rangeVersions n) = n := by
  induction n with
  | zero => rfl
  | succ m ih =>
    unfold rangeVersions
    rw [List.range_succ, List.map_append]
    have : (List.range m).map (· + 1) = rangeVersions m := rfl
    rw [this, List.map_singleton, listMax_append_singleton, ih]
    exact Nat.max_eq_right (Nat.le_succ m)

theorem rangeVersions_succ (n : Nat) :
    rangeVersions (n + 1) = rangeVersions n ++ [n + 1] := by
  unfold rangeVersions
  rw [List.range_succ, List.map_append, List.map_singleton]

theorem build_asset_id_inj {sid sid' : String} {v v' : Nat}
    (h : build_asset_id sid v = build_asset_id sid' v') : sid = sid' ∧ v = v' := by
  have hd : build_asset_id_chars sid.data v = build_asset_id_chars sid'.data v' :=
    congrArg String.data h
  have h2 := parse_build_chars sid.data v
  rw [hd, parse_build_chars] at h2
  have ha : sid'.data = sid.data := congrArg Prod.fst h2
  have hb : v' = v := congrArg Prod.snd h2
  constructor
  · have h3 := congrArg String.mk ha
    rw [String_mk_data, String_mk_data] at h3
    exact h3.symm
  · exact hb.symm

/-- One repository-mediated `update_script`-style put advances the invariant
by exactly one version. -/
theorem create_asset_step {sid : String} {n : Nat} {s : KindStore}
    (hinv : StoreInv sid n s) (a : SAsset)
    (hsid : a.stable_id = sid) (hver : a.version = n + 1) :
    StoreInv sid (n + 1) (create_asset s a) ∧
      get_asset (create_asset s a) sid none = some a := by
  obtain ⟨hidx, hfiles, hbound⟩ := hinv
  have hnotmem : (rangeVersions n).contains (n + 1) = false := by
    rw [List.contains_eq_any_beq]
    simp only [List.any_eq_false]
    intro x hx
    have := mem_rangeVersions.mp hx
    simp [beq_iff_eq]
    omega
  have hidx' : alistGet (create_asset s a).index sid
      = some ⟨rangeVersions (n + 1), n + 1⟩ := by
    show alistGet (updateAssetIndex s.index a.stable_id a.version) sid = _
    rw [hsid, hver]
    unfold updateAssetIndex
    rw [hidx]
    simp only [hnotmem, Bool.false_eq_true, if_false]
    rw [alistGet_set, if_pos rfl, ← rangeVersions_succ, listMax_rangeVersions]
  have hfile' : ∀ v, 1 ≤ v → v ≤ n + 1 →
      ∃ b, alistGet (create_asset s a).files (build_asset_id sid v) = some b ∧
        b.stable_id = sid ∧ b.version = v := by
    intro v h1 h2
    show ∃ b, alistGet (alistSet s.files (build_asset_id a.stable_id a.version) a)
        (build_asset_id sid v) = some b ∧ _
    rw [hsid, hver, alistGet_set]
    by_cases hv : v = n + 1
    · subst hv
      rw [if_pos rfl]
      exact ⟨a, rfl, hsid, hver⟩
    · rw [if_neg (fun hc => hv (build_asset_id_inj hc).2)]
      exact hfiles v h1 (by omega)
  have hbound' : ∀ p ∈ (create_asset s a).files,
      (p : String × SAsset).2.version ≤ n + 1 := by
    intro p hp
    rcases mem_alistSet hp with h | h
    · exact Nat.le_succ_of_le (hbound p h)
    · rw [h]; simpa using Nat.le_of_eq hver
  refine ⟨⟨hidx', hfile', hbound'⟩, ?_⟩
  unfold get_asset getLatestVersion
  rw [hidx']
  simp only [Option.map_some]
  show alistGet (alistSet s.files (build_asset_id a.stable_id a.version) a)
      (build_asset_id sid (n + 1)) = some a
  rw [hsid, hver, alistGet_set, if_pos rfl]

/-- A put at an already-stored version `w ≤ n` (possible through
`patch_plan` with a stale reference) leaves the index entry unchanged —
`versions` already contains `w`, so `latest` stays `n` — while the file at
version `w` is silently overwritten with the new asset. -/
theorem create_asset_stale {sid : String} {n : Nat} {s : KindStore}
    (hinv : StoreInv sid n s) (a : SAsset) (hsid : a.stable_id = sid)
    (h1 : 1 ≤ a.version) (h2 : a.version ≤ n) :
    alistGet (create_asset s a).index sid = some ⟨rangeVersions n, n⟩ ∧
    alistGet (create_asset s a).files (build_asset_id sid a.version)
      = some a := by
  obtain ⟨hidx, hfiles, hbound⟩ := hinv
  have hmem : (rangeVersions n).contains a.version = true := by
    rw [List.contains_eq_any_beq]
    simp only [List.any_eq_true]
    exact ⟨a.version, mem_rangeVersions.mpr ⟨h1, h2⟩, by simp⟩
  constructor
  · show alistGet (updateAssetIndex s.index a.stable_id a.version) sid = _
    rw [hsid]
    unfold updateAssetIndex
    rw [hidx]
    simp only [hmem, if_true]
    rw [alistGet_set, if_pos rfl, listMax_rangeVersions]
  · show alistGet (alistSet s.files (build_asset_id a.stable_id a.version) a)
        (build_asset_id sid a.version) = some a
    rw [hsid, alistGet_set, if_pos rfl]

/-- With at least one version stored, `get(id, latest)` resolves through the
index to the version-`n` file. -/
theorem storeInv_get_latest {sid : String} {n : Nat} {t : KindStore}
    (hn : 1 ≤ n) (hinv : StoreInv sid n t) :
    ∃ a, get_asset t sid none = some a ∧ a.stable_id = sid ∧ a.version = n := by
  obtain ⟨hidx, hfiles, _⟩ := hinv
  obtain ⟨a, ha, has, hav⟩ := hfiles n hn (Nat.le_refl n)
  refine ⟨a, ?_, has, hav⟩
  unfold get_asset getLatestVersion
  rw [hidx]
  simpa using ha

theorem runUpdates_inv {sid : String} (cs : List String) {n : Nat}
    {s : KindStore} (hn : 1 ≤ n) (hinv : StoreInv sid n s) :
    ∃ t, runUpdates sid s cs = some t ∧ StoreInv sid (n + cs.length) t := by
  induction cs generalizing n s with
  | nil => exact ⟨s, rfl, by simpa using hinv⟩
  | cons c cs ih =>
    obtain ⟨a, ha, _, hav⟩ := storeInv_get_latest hn hinv
    have hstep := create_asset_step hinv ⟨sid, a.version + 1, c⟩ rfl (by simp [hav])
    obtain ⟨t, ht, htinv⟩ := ih (Nat.le_succ_of_le hn) hstep.1
    refine ⟨t, ?_, ?_⟩
    · show (match pipeline_update_script s sid c with
        | none => none
        | some s' => runUpdates sid s' cs) = some t
      unfold pipeline_update_script
      rw [ha]
      simpa using ht
    · have harith : n + 1 + cs.length = n + (cs.length + 1) := by omega
      rw [harith] at htinv
      simpa using htinv

/-- The invariant holds right after `pipeline.create_script` on a fresh store. -/
theorem storeInv_init (sid c0 : String) :
    StoreInv sid 1 (pipeline_create_script emptyStore sid c0) := by
  refine ⟨?_, ?_, ?_⟩
  · show alistGet (updateAssetIndex emptyStore.index sid 1) sid = _
    have h1 : updateAssetIndex emptyStore.index sid 1 = [(sid, ⟨[1], 1⟩)] := rfl
    rw [h1]
    have h2 : List.find? (fun p => p.1 == sid) [(sid, (⟨[1], 1⟩ : IndexEntry))]
        = some (sid, ⟨[1], 1⟩) := List.find?_cons_of_pos _ (by simp)
    simp only [alistGet, h2, Option.map_some]
    rfl
  · intro v h1 h2
    have hv : v = 1 := by omega
    subst hv
    refine ⟨⟨sid, 1, c0⟩, ?_, rfl, rfl⟩
    show alistGet (alistSet emptyStore.files (build_asset_id sid 1) ⟨sid, 1, c0⟩)
        (build_asset_id sid 1) = _
    rw [alistGet_set, if_pos rfl]
  · intro p hp
    rcases mem_alistSet hp with h | h
    · simp [emptyStore] at h
    · rw [h]

/-- C1 evidence: `create_plan_asset` (and the other `create_*_asset` methods)
performs no conflict check at all — a second put at the already-occupied key
`("plan_1", 1)` with different content silently overwrites the stored version
instead of raising `ConflictError`, contradicting the module's own
"never overwritten" documentation. -/
theorem claim_C1_conflict_overwrites :
    get_asset
        (create_asset (create_asset emptyStore ⟨"plan_1", 1, "content A"⟩)
          ⟨"plan_1", 1, "content B"⟩)
        "plan_1" (some 1)
      = some ⟨"plan_1", 1, "content B"⟩ ∧
    ("content B" : String) ≠ "content A" := by
  constructor
  · decide
  · decide

/-- C8 counterexample: with versions 1, 2, 3 of `plan_1` stored (latest 3),
the repository-mediated put `patch_plan("plan_1_v1", patches)` stores
version 2 — stale version 1 plus one, not previous latest plus one (4) — and
silently overwrites the already-stored version-2 file (payload `B` becomes
the patched `A*`), while latest stays 3.  This refutes the universal claim
that each successive version stored through the repository is exactly one
greater than the previous latest version. -/
theorem claim_C8_counterexample :
    getLatestVersion c8Store "plan_1" = some 3 ∧
    alistGet c8Store.files "plan_1_v2" = some ⟨"plan_1", 2, "B"⟩ ∧
    pipeline_patch_plan starPatch c8Store "plan_1_v1"
      = some (create_asset c8Store ⟨"plan_1", 2, "A*"⟩) ∧
    getLatestVersion (create_asset c8Store ⟨"plan_1", 2, "A*"⟩) "plan_1"
      = some 3 ∧
    alistGet (create_asset c8Store ⟨"plan_1", 2, "A*"⟩).files "plan_1_v2"
      = some ⟨"plan_1", 2, "A*"⟩ := by
  refine ⟨by decide, by decide, by decide, by decide, by decide⟩

/-- C8 as amended: versions stored through the repository increase by exactly
one *when every put targets the current latest version*.  `create_script`
followed by any sequence of `update_script` calls keeps the index at
`[1, ..., k]`, every version on disk under its own id, and `get` with no
version returning the maximal stored version (the original claim, true on
this flow).  `patch_plan`, however, stores at `parsed.version + 1` for the
caller-supplied reference: a reference to the latest version `n` advances the
invariant to `n + 1`, but a stale reference `v < n` stores `v + 1 ≤ n` — not
`n + 1` — silently overwriting the existing version-`(v+1)` file while the
index entry (version list and latest) is unchanged and `get` with no version
still resolves to version `n`. -/
theorem claim_C8_versions_amended :
    (∀ (sid c0 : String) (cs : List String),
      ∃ t, runUpdates sid (pipeline_create_script emptyStore sid c0) cs
          = some t ∧
        alistGet t.index sid
          = some ⟨rangeVersions (1 + cs.length), 1 + cs.length⟩ ∧
        (∀ v, 1 ≤ v → v ≤ 1 + cs.length →
          ∃ a, alistGet t.files (build_asset_id sid v) = some a ∧
            a.stable_id = sid ∧ a.version = v) ∧
        (∃ a, get_asset t sid none = some a ∧ a.stable_id = sid ∧
          a.version = 1 + cs.length ∧
          ∀ p ∈ t.files, (p : String × SAsset).2.version ≤ a.version)) ∧
    (∀ (patchFn : String → String) (sid ref : String) (n v : Nat)
        (s : KindStore), StoreInv sid n s → parse_asset_ref ref = (sid, v) →
      1 ≤ v → v ≤ n →
      ∃ a, get_asset s sid (some v) = some a ∧
        a.stable_id = sid ∧ a.version = v ∧
        pipeline_patch_plan patchFn s ref
          = some (create_asset s ⟨sid, v + 1, patchFn a.payload⟩) ∧
        (v = n → StoreInv sid (n + 1)
            (create_asset s ⟨sid, v + 1, patchFn a.payload⟩)) ∧
        (v < n →
          alistGet (create_asset s ⟨sid, v + 1, patchFn a.payload⟩).index sid
            = some ⟨rangeVersions n, n⟩ ∧
          alistGet (create_asset s ⟨sid, v + 1, patchFn a.payload⟩).files
              (build_asset_id sid (v + 1))
            = some ⟨sid, v + 1, patchFn a.payload⟩ ∧
          ∃ b, get_asset (create_asset s ⟨sid, v + 1, patchFn a.payload⟩)
              sid none = some b ∧ b.stable_id = sid ∧ b.version = n)) := by
  constructor
  · intro sid c0 cs
    obtain ⟨t, ht, htinv⟩ :=
      runUpdates_inv cs (Nat.le_refl 1) (storeInv_init sid c0)
    obtain ⟨a, ha, has, hav⟩ := storeInv_get_latest (by omega) htinv
    obtain ⟨hidx, hfiles, hbound⟩ := htinv
    exact ⟨t, ht, hidx, hfiles,
      ⟨a, ha, has, hav, fun p hp => hav ▸ hbound p hp⟩⟩
  · intro patchFn sid ref n v s hinv href h1 h2
    obtain ⟨hidx, hfiles, hbound⟩ := hinv
    obtain ⟨a, ha, has, hav⟩ := hfiles v h1 h2
    have hget : get_asset s sid (some v) = some a := ha
    refine ⟨a, hget, has, hav, ?_, ?_, ?_⟩
    · unfold pipeline_patch_plan
      simp only [href, hget, hav]
    · intro hv
      subst hv
      exact (create_asset_step ⟨hidx, hfiles, hbound⟩
        ⟨sid, v + 1, patchFn a.payload⟩ rfl rfl).1
    · intro hv
      have hstale := create_asset_stale ⟨hidx, hfiles, hbound⟩
        ⟨sid, v + 1, patchFn a.payload⟩ rfl
        (show 1 ≤ v + 1 by omega) (show v + 1 ≤ n by omega)
      refine ⟨hstale.1, hstale.2, ?_⟩
      by_cases hvn : v + 1 = n
      · refine ⟨⟨sid, v + 1, patchFn a.payload⟩, ?_, rfl, hvn⟩
        unfold get_asset getLatestVersion
        rw [hstale.1]
        simp only [Option.map_some]
        show alistGet (create_asset s ⟨sid, v + 1, patchFn a.payload⟩).files
            (build_asset_id sid n) = _
        rw [← hvn]
        exact hstale.2
      · obtain ⟨b, hb, hbs, hbv⟩ := hfiles n (by omega) (Nat.le_refl n)
        refine ⟨b, ?_, hbs, hbv⟩
        unfold get_asset getLatestVersion
        rw [hstale.1]
        simp only [Option.map_some]
        show alistGet (alistSet s.files (build_asset_id sid (v + 1))
            ⟨sid, v + 1, patchFn a.payload⟩) (build_asset_id sid n) = some b
        rw [alistGet_set,
          if_neg (fun hc => hvn (build_asset_id_inj hc).2.symm)]
        exact hb

/-- The three-version store satisfies the repository invariant at `n = 3`. -/
theorem c8Store_inv : StoreInv "plan_1" 3 c8Store := by
  refine ⟨by decide, ?_, by decide⟩
  intro v h1 h2
  interval_cases v
  · exact ⟨⟨"plan_1", 1, "A"⟩, by decide, rfl, rfl⟩
  · exact ⟨⟨"plan_1", 2, "B"⟩, by decide, rfl, rfl⟩
  · exact ⟨⟨"plan_1", 3, "C"⟩, by decide, rfl, rfl⟩

theorem claim_C8_versions_amended_witness :
    (StoreInv "plan_1" 3 c8Store ∧
      parse_asset_ref "plan_1_v1" = ("plan_1", 1) ∧
      (1 : Nat) ≤ 1 ∧ (1 : Nat) ≤ 3) ∧
    (∃ a, get_asset c8Store "plan_1" (some 1) = some a ∧
      a.stable_id = "plan_1" ∧ a.version = 1 ∧
      pipeline_patch_plan starPatch c8Store "plan_1_v1"
        = some (create_asset c8Store ⟨"plan_1", 1 + 1, starPatch a.payload⟩) ∧
      ((1 : Nat) = 3 → StoreInv "plan_1" (3 + 1)
          (create_asset c8Store ⟨"plan_1", 1 + 1, starPatch a.payload⟩)) ∧
      ((1 : Nat) < 3 →
        alistGet (create_asset c8Store
            ⟨"plan_1", 1 + 1, starPatch a.payload⟩).index "plan_1"
          = some ⟨rangeVersions 3, 3⟩ ∧
        alistGet (create_asset c8Store
            ⟨"plan_1", 1 + 1, starPatch a.payload⟩).files
            (build_asset_id "plan_1" (1 + 1))
          = some ⟨"plan_1", 1 + 1, starPatch a.payload⟩ ∧
        ∃ b, get_asset (create_asset c8Store
            ⟨"plan_1", 1 + 1, starPatch a.payload⟩) "plan_1" none = some b ∧
          b.stable_id = "plan_1" ∧ b.version = 3)) :=
  ⟨⟨c8Store_inv, by decide, by decide, by decide⟩,
    claim_C8_versions_amended.2 starPatch "plan_1" "plan_1_v1" 3 1 c8Store
      c8Store_inv (by decide) (by decide) (by decide)⟩

/-! ### Repair-loop lemmas -/

theorem varAux_step_clean (critic : PlanA → ShotPlanA → List QAIssue)
    (repairFn : ShotPlanA → List QAIssue → Option ShotPlanA) (plan : PlanA)
    (fuel iter : Nat) (sp : ShotPlanA)
    (h : (validate_shot_plan critic plan sp (iter == 0)).filter severityIsError
      = []) :
    validateAndRepairAux critic repairFn plan (fuel + 1) iter sp
      = (sp, 0, [iter == 0]) := by
  rw [validateAndRepairAux]
  simp only [h, List.isEmpty_nil, if_true]

theorem varAux_step_dirty (critic : PlanA → ShotPlanA → List QAIssue)
    (repairFn : ShotPlanA → List QAIssue → Option ShotPlanA) (plan : PlanA)
    (fuel iter : Nat) (sp sp2 : ShotPlanA)
    (h : (validate_shot_plan critic plan sp (iter == 0)).filter severityIsError
      ≠ [])
    (hr : repairFn sp
        ((validate_shot_plan critic plan sp (iter == 0)).filter severityIsError)
      = some sp2) :
    validateAndRepairAux critic repairFn plan (fuel + 1) iter sp
      = ((validateAndRepairAux critic repairFn plan fuel (iter + 1) sp2).1,
         (validateAndRepairAux critic repairFn plan fuel (iter + 1) sp2).2.1 + 1,
         (iter == 0)
           :: (validateAndRepairAux critic repairFn plan fuel (iter + 1) sp2).2.2)
    := by
  rw [validateAndRepairAux]
  have hne :
      ((validate_shot_plan critic plan sp (iter == 0)).filter
        severityIsError).isEmpty = false := by
    cases hc : (validate_shot_plan critic plan sp (iter == 0)).filter
        severityIsError with
    | nil => exact absurd hc h
    | cons a l => rfl
  simp only [hne, Bool.false_eq_true, if_false, hr]

/-- C2: the validate-and-repair loop terminates; with no error-severity issues
it performs zero repair calls and returns the shot plan unchanged, and with a
repair service that always returns the same broken document it performs
exactly `MAX_REPAIR_ITERATIONS` (= 2) validate-repair cycles, uses the
external critique only on iteration 0 (the critic flags are `[true, false]`),
and returns a result that still fails validation with errors. -/
theorem claim_C2_repair_loop :
    (∀ (critic : PlanA → ShotPlanA → List QAIssue)
        (repairFn : ShotPlanA → List QAIssue → Option ShotPlanA)
        (plan : PlanA) (sp : ShotPlanA),
      (validate_shot_plan critic plan sp true).filter severityIsError = [] →
      validate_and_repair_shot_plan critic repairFn plan sp = (sp, 0, [true])) ∧
    (∀ (critic : PlanA → ShotPlanA → List QAIssue) (plan : PlanA)
        (sp b : ShotPlanA)
        (repairFn : ShotPlanA → List QAIssue → Option ShotPlanA),
      (∀ x issues, repairFn x issues = some b) →
      (validate_shot_plan critic plan sp true).filter severityIsError ≠ [] →
      (validate_shot_plan critic plan b false).filter severityIsError ≠ [] →
      validate_and_repair_shot_plan critic repairFn plan sp
        = (b, MAX_REPAIR_ITERATIONS, [true, false]) ∧
      (validate_shot_plan critic plan b false).filter severityIsError ≠ []) := by
  constructor
  · intro critic repairFn plan sp h
    exact varAux_step_clean critic repairFn plan 1 0 sp h
  · intro critic plan sp b repairFn hrep h0 h1
    refine ⟨?_, h1⟩
    have inner2 : validateAndRepairAux critic repairFn plan 0 2 b = (b, 0, []) :=
      rfl
    have inner1 : validateAndRepairAux critic repairFn plan 1 1 b
        = (b, 1, [false]) := by
      rw [varAux_step_dirty critic repairFn plan 0 1 b b h1 (hrep b _)]
      rw [inner2]
      rfl
    show validateAndRepairAux critic repairFn plan 2 0 sp = _
    rw [varAux_step_dirty critic repairFn plan 1 0 sp b h0 (hrep sp _)]
    rw [inner1]
    rfl

theorem claim_C2_repair_loop_witness :
    ((validate_shot_plan (fun _ _ => []) planW spCleanW true).filter
        severityIsError = [] ∧
      validate_and_repair_shot_plan (fun _ _ => []) (fun _ _ => none) planW
        spCleanW = (spCleanW, 0, [true])) ∧
    ((validate_shot_plan (fun _ _ => []) planW spBadW true).filter
        severityIsError ≠ [] ∧
      validate_and_repair_shot_plan (fun _ _ => []) (fun _ _ => some spBadW)
        planW spBadW = (spBadW, MAX_REPAIR_ITERATIONS, [true, false])) := by
  constructor
  · exact ⟨by decide,
      claim_C2_repair_loop.1 (fun _ _ => []) (fun _ _ => none) planW spCleanW
        (by decide)⟩
  · exact ⟨by decide,
      (claim_C2_repair_loop.2 (fun _ _ => []) planW spBadW spBadW
        (fun _ _ => some spBadW) (fun _ _ => rfl) (by decide) (by decide)).1⟩

/-- C9: per shot, the required-fields check reports an error-severity issue
exactly when `continuity_lock` is empty or whitespace-only (i.e. strips to
`""`), and a warning-severity issue exactly when `negative_prompt` is unset
(`None`); `negative_prompt = ""` yields no issue. -/
theorem claim_C9_required_fields :
    ∀ (spid : String) (ver : Nat) (pid : String) (pver : Nat) (shot : Shot),
      ((validateRequiredFields ⟨spid, ver, pid, pver, [shot]⟩).any
          (fun i => i.severity == QASeverity.error)
        = (pyStrip shot.continuity_lock == "")) ∧
      ((validateRequiredFields ⟨spid, ver, pid, pver, [shot]⟩).any
          (fun i => i.severity == QASeverity.warning)
        = (shot.negative_prompt == none)) := by
  intro spid ver pid pver shot
  have hstrip_empty : pyStrip "" = "" := rfl
  constructor
  · by_cases hs : pyStrip shot.continuity_lock = ""
    · by_cases h0 : shot.continuity_lock = ""
      · cases hnp : shot.negative_prompt with
        | none => simp [validateRequiredFields, h0, hs, hnp, hstrip_empty]
        | some s => simp [validateRequiredFields, h0, hs, hnp, hstrip_empty]
      · cases hnp : shot.negative_prompt with
        | none => simp [validateRequiredFields, h0, hs, hnp, hstrip_empty]
        | some s => simp [validateRequiredFields, h0, hs, hnp, hstrip_empty]
    · have h0 : ¬shot.continuity_lock = "" := by
        intro hc; rw [hc] at hs; exact hs hstrip_empty
      cases hnp : shot.negative_prompt with
      | none => simp [validateRequiredFields, h0, hs, hnp, hstrip_empty]
      | some s => simp [validateRequiredFields, h0, hs, hnp, hstrip_empty]
  · by_cases hs : pyStrip shot.continuity_lock = ""
    · by_cases h0 : shot.continuity_lock = ""
      · cases hnp : shot.negative_prompt with
        | none => simp [validateRequiredFields, h0, hs, hnp, hstrip_empty]
        | some s => simp [validateRequiredFields, h0, hs, hnp, hstrip_empty]
      · cases hnp : shot.negative_prompt with
        | none => simp [validateRequiredFields, h0, hs, hnp, hstrip_empty]
        | some s => simp [validateRequiredFields, h0, hs, hnp, hstrip_empty]
    · have h0 : ¬shot.continuity_lock = "" := by
        intro hc; rw [hc] at hs; exact hs hstrip_empty
      cases hnp : shot.negative_prompt with
      | none => simp [validateRequiredFields, h0, hs, hnp, hstrip_empty]
      | some s => simp [validateRequiredFields, h0, hs, hnp, hstrip_empty]

theorem claim_C7_decode_fallback_witness :
    (rsplitV ("script7" : String).data = none ∧
      parse_asset_id "script7" = ("script7", 1)) ∧
    (rsplitV ("plan_7f3a_v2" : String).data
        = some (['p', 'l', 'a', 'n', '_', '7', 'f', '3', 'a'], ['2']) ∧
      parse_asset_id "plan_7f3a_v2" = ("plan_7f3a", 2)) := by
  constructor
  · exact ⟨by decide, (claim_C7_decode_fallback "script7").2.1 (by decide)⟩
  · refine ⟨by decide, ?_⟩
    have h := (((claim_C7_decode_fallback "plan_7f3a_v2").2.2
      ['p', 'l', 'a', 'n', '_', '7', 'f', '3', 'a'] ['2'] (by decide)).2.2 (by decide))
    rw [h]
    decide

/-! ### Patch-engine lemmas: heap regions -/

theorem prefix_getElem? {h h' : Heap} (hp : h <+: h') {a : Nat}
    (ha : a < h.length) : h'[a]? = h[a]? := by
  obtain ⟨t, rfl⟩ := hp
  exact List.getElem?_append_left ha

theorem valHighB_mono {n m : Nat} (hnm : n ≤ m) {v : PyVal}
    (h : valHighB m v = true) : valHighB n v = true := by
  cases v with
  | atom a => rfl
  | ref a =>
    simp only [valHighB, decide_eq_true_eq] at h ⊢
    omega

theorem objHighB_mono {n m : Nat} (hnm : n ≤ m) {o : PyObj}
    (h : objHighB m o = true) : objHighB n o = true := by
  cases o with
  | dict flds =>
    simp only [objHighB, List.all_eq_true] at h ⊢
    exact fun p hp => valHighB_mono hnm (h p hp)
  | list items =>
    simp only [objHighB, List.all_eq_true] at h ⊢
    exact fun v hv => valHighB_mono hnm (h v hv)

theorem highClosed_compose {n : Nat} {h1 h2 : Heap} (hp : h1 <+: h2)
    (hc1 : HighClosed n h1) (hc2 : HighClosed h1.length h2)
    (hn : n ≤ h1.length) : HighClosed n h2 := by
  intro a o ha ho
  by_cases hlt : a < h1.length
  · rw [prefix_getElem? hp hlt] at ho
    exact hc1 a o ha ho
  · exact objHighB_mono hn (hc2 a o (by omega) ho)

theorem heapInv_refl {n : Nat} {h0 : Heap} (hn : n ≤ h0.length)
    (hc : HighClosed n h0) : HeapInv n h0 h0 :=
  ⟨fun _ _ => rfl, hn, hc⟩

theorem heapInv_extend {n : Nat} {h0 h h' : Heap} (hinv : HeapInv n h0 h)
    (hp : h <+: h') (hc : HighClosed h.length h') : HeapInv n h0 h' := by
  obtain ⟨hag, hlen, hhc⟩ := hinv
  refine ⟨?_, Nat.le_trans hlen hp.length_le,
    highClosed_compose hp hhc hc hlen⟩
  intro a ha
  rw [prefix_getElem? hp (by omega)]
  exact hag a ha

theorem heapInv_set {n : Nat} {h0 h : Heap} (hinv : HeapInv n h0 h) {a : Nat}
    (ha : n ≤ a) {o : PyObj} (ho : objHighB n o = true) :
    HeapInv n h0 (hSet h a o) := by
  obtain ⟨hag, hlen, hhc⟩ := hinv
  refine ⟨?_, ?_, ?_⟩
  · intro b hb
    unfold hSet
    rw [List.getElem?_set_ne (by omega)]
    exact hag b hb
  · simpa [hSet] using hlen
  · intro b ob hb hob
    unfold hSet at hob
    rw [List.getElem?_set] at hob
    by_cases hab : a = b
    · subst hab
      rw [if_pos rfl] at hob
      by_cases halen : a < h.length
      · rw [if_pos halen] at hob
        cases hob
        exact ho
      · rw [if_neg halen] at hob
        exact absurd hob (by simp)
    · rw [if_neg hab] at hob
      exact hhc b ob hb hob

theorem alistGet_mem {α : Type} {l : List (String × α)} {k : String} {v : α}
    (h : alistGet l k = some v) : ∃ k', (k', v) ∈ l := by
  unfold alistGet at h
  cases hf : l.find? (fun p => p.1 == k) with
  | none => rw [hf] at h; exact absurd h (by simp)
  | some p =>
    rw [hf] at h
    simp only [Option.map_some', Option.some.injEq] at h
    have hm := List.mem_of_find?_eq_some hf
    exact ⟨p.1, by rw [← h]; exact hm⟩

theorem highClosed_dict_val {n : Nat} {h : Heap} (hhc : HighClosed n h)
    {a : Nat} (ha : n ≤ a) {flds : List (String × PyVal)} {k : String}
    {v : PyVal} (hobj : h[a]? = some (.dict flds))
    (hget : alistGet flds k = some v) : valHighB n v = true := by
  have hall := hhc a _ ha hobj
  simp only [objHighB, List.all_eq_true] at hall
  obtain ⟨k', hk'⟩ := alistGet_mem hget
  exact hall (k', v) hk'

theorem highClosed_list_item {n : Nat} {h : Heap} (hhc : HighClosed n h)
    {a : Nat} (ha : n ≤ a) {items : List PyVal} {v : PyVal}
    (hobj : h[a]? = some (.list items)) (hv : v ∈ items) :
    valHighB n v = true := by
  have hall := hhc a _ ha hobj
  simp only [objHighB, List.all_eq_true] at hall
  exact hall v hv

theorem findById_ok_mem {h : Heap} {lk idf tok : String} {items : List PyVal}
    {v : PyVal} (hr : findById h lk idf tok items = .ok v) : v ∈ items := by
  induction items with
  | nil => exact absurd hr (by rw [findById]; simp)
  | cons item rest ih =>
    cases item with
    | atom a => rw [findById] at hr; exact absurd hr (by simp)
    | ref a =>
      rw [findById] at hr
      cases ho : h[a]? with
      | none => rw [ho] at hr; exact absurd hr (by simp)
      | some o =>
        rw [ho] at hr
        cases o with
        | list l => exact absurd hr (by simp)
        | dict flds =>
          have hr2 : (if matchesId flds idf tok = true then Except.ok (PyVal.ref a)
              else findById h lk idf tok rest) = Except.ok v := hr
          by_cases hm : matchesId flds idf tok
          · rw [if_pos hm] at hr2
            cases hr2
            exact List.mem_cons_self _ _
          · rw [if_neg hm] at hr2
            exact List.mem_cons_of_mem _ (ih hr2)

theorem objHighB_dict_set {n : Nat} {flds : List (String × PyVal)} {k : String}
    {v : PyVal} (hf : objHighB n (.dict flds) = true)
    (hv : valHighB n v = true) :
    objHighB n (.dict (alistSet flds k v)) = true := by
  simp only [objHighB, List.all_eq_true] at hf ⊢
  intro p hp
  rcases mem_alistSet hp with h | h
  · exact hf p h
  · rw [h]; exact hv

theorem objHighB_dict_del {n : Nat} {flds : List (String × PyVal)} {k : String}
    (hf : objHighB n (.dict flds) = true) :
    objHighB n (.dict (alistDel flds k)) = true := by
  simp only [objHighB, List.all_eq_true] at hf ⊢
  intro p hp
  exact hf p (List.mem_filter.mp hp).1

theorem objHighB_list_mem {n : Nat} {items : List PyVal}
    (h : ∀ v ∈ items, valHighB n v = true) :
    objHighB n (.list items) = true := by
  simp only [objHighB, List.all_eq_true]
  exact h

theorem objHighB_list_elim {n : Nat} {items : List PyVal}
    (h : objHighB n (.list items) = true) : ∀ v ∈ items, valHighB n v = true := by
  simp only [objHighB, List.all_eq_true] at h
  exact h

theorem highClosed_self (h : Heap) : HighClosed h.length h := by
  intro a o ha ho
  rw [List.getElem?_eq_none ha] at ho
  cases ho

theorem highClosed_snoc {n : Nat} {h1 : Heap} {o : PyObj}
    (hc : HighClosed n h1) (ho : objHighB n o = true) :
    HighClosed n (h1 ++ [o]) := by
  intro a ob ha hob
  by_cases hlt : a < h1.length
  · rw [List.getElem?_append_left hlt] at hob
    exact hc a ob ha hob
  · by_cases heq : a = h1.length
    · subst heq
      rw [List.getElem?_concat_length] at hob
      cases hob
      exact ho
    · rw [List.getElem?_eq_none (by simp; omega)] at hob
      cases hob

theorem stMapFields_spec {f : Heap → PyVal → Option (Heap × PyVal)}
    (hf : ∀ h v h' v', f h v = some (h', v') →
      h <+: h' ∧ valHighB h.length v' = true ∧ HighClosed h.length h') :
    ∀ (ps : List (String × PyVal)) (h h' : Heap)
      (ps' : List (String × PyVal)), stMapFields f h ps = some (h', ps') →
      h <+: h' ∧ (∀ p ∈ ps', valHighB h.length p.2 = true) ∧
        HighClosed h.length h' := by
  intro ps
  induction ps with
  | nil =>
    intro h h' ps' heq
    rw [stMapFields] at heq
    cases heq
    exact ⟨List.prefix_refl h, by simp, highClosed_self h⟩
  | cons p ps ih =>
    intro h h' ps' heq
    rw [stMapFields] at heq
    cases hfv : f h p.2 with
    | none => rw [hfv] at heq; cases heq
    | some r =>
      obtain ⟨h1, v1⟩ := r
      rw [hfv] at heq
      have heq2 : (match stMapFields f h1 ps with
          | none => none
          | some (h2, ps') => some (h2, (p.1, v1) :: ps')) = some (h', ps') :=
        heq
      cases hrest : stMapFields f h1 ps with
      | none => rw [hrest] at heq2; cases heq2
      | some r2 =>
        obtain ⟨h2, ps2⟩ := r2
        rw [hrest] at heq2
        simp only [Option.some.injEq, Prod.mk.injEq] at heq2
        obtain ⟨hh, hv⟩ := heq2
        obtain ⟨hp1, hv1, hc1⟩ := hf h p.2 h1 v1 hfv
        obtain ⟨hp2, hv2, hc2⟩ := ih h1 h2 ps2 hrest
        subst hh hv
        refine ⟨hp1.trans hp2, ?_,
          highClosed_compose hp2 hc1 hc2 hp1.length_le⟩
        intro q hq
        rcases List.mem_cons.mp hq with hq' | hq'
        · rw [hq']; exact hv1
        · exact valHighB_mono hp1.length_le (hv2 q hq')

theorem stMapVals_spec {f : Heap → PyVal → Option (Heap × PyVal)}
    (hf : ∀ h v h' v', f h v = some (h', v') →
      h <+: h' ∧ valHighB h.length v' = true ∧ HighClosed h.length h') :
    ∀ (vs : List PyVal) (h h' : Heap) (vs' : List PyVal),
      stMapVals f h vs = some (h', vs') →
      h <+: h' ∧ (∀ v ∈ vs', valHighB h.length v = true) ∧
        HighClosed h.length h' := by
  intro vs
  induction vs with
  | nil =>
    intro h h' vs' heq
    rw [stMapVals] at heq
    cases heq
    exact ⟨List.prefix_refl h, by simp, highClosed_self h⟩
  | cons v vs ih =>
    intro h h' vs' heq
    rw [stMapVals] at heq
    cases hfv : f h v with
    | none => rw [hfv] at heq; cases heq
    | some r =>
      obtain ⟨h1, v1⟩ := r
      rw [hfv] at heq
      have heq2 : (match stMapVals f h1 vs with
          | none => none
          | some (h2, vs') => some (h2, v1 :: vs')) = some (h', vs') := heq
      cases hrest : stMapVals f h1 vs with
      | none => rw [hrest] at heq2; cases heq2
      | some r2 =>
        obtain ⟨h2, vs2⟩ := r2
        rw [hrest] at heq2
        simp only [Option.some.injEq, Prod.mk.injEq] at heq2
        obtain ⟨hh, hv⟩ := heq2
        obtain ⟨hp1, hv1, hc1⟩ := hf h v h1 v1 hfv
        obtain ⟨hp2, hv2, hc2⟩ := ih h1 h2 vs2 hrest
        subst hh hv
        refine ⟨hp1.trans hp2, ?_,
          highClosed_compose hp2 hc1 hc2 hp1.length_le⟩
        intro w hw
        rcases List.mem_cons.mp hw with hw' | hw'
        · rw [hw']; exact hv1
        · exact valHighB_mono hp1.length_le (hv2 w hw')

theorem copyVal_spec : ∀ (fuel : Nat) (h : Heap) (v : PyVal) (h' : Heap)
    (v' : PyVal), copyVal h fuel v = some (h', v') →
    h <+: h' ∧ valHighB h.length v' = true ∧ HighClosed h.length h' := by
  intro fuel
  induction fuel with
  | zero =>
    intro h v h' v' heq
    cases v with
    | atom a =>
      rw [copyVal] at heq
      cases heq
      exact ⟨List.prefix_refl h, rfl, highClosed_self h⟩
    | ref a => rw [copyVal] at heq; cases heq
  | succ fuel ih =>
    intro h v h' v' heq
    cases v with
    | atom a =>
      rw [copyVal] at heq
      cases heq
      exact ⟨List.prefix_refl h, rfl, highClosed_self h⟩
    | ref a =>
      rw [copyVal] at heq
      cases ho : h[a]? with
      | none => rw [ho] at heq; cases heq
      | some o =>
        rw [ho] at heq
        cases o with
        | dict flds =>
          have heq2 : (match stMapFields (fun h' v => copyVal h' fuel v) h
                flds with
              | none => none
              | some (h1, flds') =>
                let r := hAlloc h1 (PyObj.dict flds')
                some (r.1, PyVal.ref r.2)) = some (h', v') := heq
          cases hcf : stMapFields (fun h' v => copyVal h' fuel v) h flds with
          | none => rw [hcf] at heq2; cases heq2
          | some r =>
            obtain ⟨h1, flds'⟩ := r
            rw [hcf] at heq2
            simp only [hAlloc, Option.some.injEq, Prod.mk.injEq] at heq2
            obtain ⟨hh, hv⟩ := heq2
            obtain ⟨hp, hvals, hhc⟩ := stMapFields_spec
              (fun h v h' v' hf => ih h v h' v' hf) flds h h1 flds' hcf
            subst hh hv
            refine ⟨hp.trans (List.prefix_append _ _), ?_, ?_⟩
            · simp only [valHighB, decide_eq_true_eq]
              exact hp.length_le
            · exact highClosed_snoc hhc (by
                simp only [objHighB, List.all_eq_true]
                exact hvals)
        | list items =>
          have heq2 : (match stMapVals (fun h' v => copyVal h' fuel v) h
                items with
              | none => none
              | some (h1, items') =>
                let r := hAlloc h1 (PyObj.list items')
                some (r.1, PyVal.ref r.2)) = some (h', v') := heq
          cases hcv : stMapVals (fun h' v => copyVal h' fuel v) h items with
          | none => rw [hcv] at heq2; cases heq2
          | some r =>
            obtain ⟨h1, items'⟩ := r
            rw [hcv] at heq2
            simp only [hAlloc, Option.some.injEq, Prod.mk.injEq] at heq2
            obtain ⟨hh, hv⟩ := heq2
            obtain ⟨hp, hvals, hhc⟩ := stMapVals_spec
              (fun h v h' v' hf => ih h v h' v' hf) items h h1 items' hcv
            subst hh hv
            refine ⟨hp.trans (List.prefix_append _ _), ?_, ?_⟩
            · simp only [valHighB, decide_eq_true_eq]
              exact hp.length_le
            · exact highClosed_snoc hhc (by
                simp only [objHighB, List.all_eq_true]
                exact hvals)

theorem stAllocVals_spec {f : Heap → Json → Heap × PyVal}
    (hf : ∀ h j, h <+: (f h j).1 ∧ valHighB h.length (f h j).2 = true ∧
      HighClosed h.length (f h j).1) :
    ∀ (xs : List Json) (h : Heap),
      h <+: (stAllocVals f h xs).1 ∧
      (∀ v ∈ (stAllocVals f h xs).2, valHighB h.length v = true) ∧
      HighClosed h.length (stAllocVals f h xs).1 := by
  intro xs
  induction xs with
  | nil =>
    intro h
    rw [stAllocVals]
    exact ⟨List.prefix_refl h, by simp, highClosed_self h⟩
  | cons x xs ih =>
    intro h
    obtain ⟨hp1, hv1, hc1⟩ := hf h x
    obtain ⟨hp2, hv2, hc2⟩ := ih (f h x).1
    rw [stAllocVals]
    refine ⟨hp1.trans hp2, ?_, highClosed_compose hp2 hc1 hc2 hp1.length_le⟩
    intro w hw
    rcases List.mem_cons.mp hw with hw' | hw'
    · rw [hw']; exact hv1
    · exact valHighB_mono hp1.length_le (hv2 w hw')

theorem stAllocFields_spec {f : Heap → Json → Heap × PyVal}
    (hf : ∀ h j, h <+: (f h j).1 ∧ valHighB h.length (f h j).2 = true ∧
      HighClosed h.length (f h j).1) :
    ∀ (fs : List (String × Json)) (h : Heap),
      h <+: (stAllocFields f h fs).1 ∧
      (∀ p ∈ (stAllocFields f h fs).2, valHighB h.length p.2 = true) ∧
      HighClosed h.length (stAllocFields f h fs).1 := by
  intro fs
  induction fs with
  | nil =>
    intro h
    rw [stAllocFields]
    exact ⟨List.prefix_refl h, by simp, highClosed_self h⟩
  | cons p ps ih =>
    intro h
    obtain ⟨hp1, hv1, hc1⟩ := hf h p.2
    obtain ⟨hp2, hv2, hc2⟩ := ih (f h p.2).1
    rw [stAllocFields]
    refine ⟨hp1.trans hp2, ?_, highClosed_compose hp2 hc1 hc2 hp1.length_le⟩
    intro q hq
    rcases List.mem_cons.mp hq with hq' | hq'
    · rw [hq']; exact hv1
    · exact valHighB_mono hp1.length_le (hv2 q hq')

theorem allocJsonF_spec : ∀ (fuel : Nat) (h : Heap) (j : Json),
    h <+: (allocJsonF h fuel j).1 ∧
      valHighB h.length (allocJsonF h fuel j).2 = true ∧
      HighClosed h.length (allocJsonF h fuel j).1 := by
  intro fuel
  induction fuel with
  | zero =>
    intro h j
    cases j with
    | atom a =>
      rw [allocJsonF]; exact ⟨List.prefix_refl h, rfl, highClosed_self h⟩
    | arr xs =>
      rw [allocJsonF]; exact ⟨List.prefix_refl h, rfl, highClosed_self h⟩
    | obj fs =>
      rw [allocJsonF]; exact ⟨List.prefix_refl h, rfl, highClosed_self h⟩
  | succ fuel ih =>
    intro h j
    cases j with
    | atom a =>
      rw [allocJsonF]; exact ⟨List.prefix_refl h, rfl, highClosed_self h⟩
    | arr xs =>
      obtain ⟨hp, hvals, hc⟩ := stAllocVals_spec (fun h j => ih h j) xs h
      rw [allocJsonF]
      simp only [hAlloc]
      refine ⟨hp.trans (List.prefix_append _ _), ?_, ?_⟩
      · simp only [valHighB, decide_eq_true_eq]
        exact hp.length_le
      · exact highClosed_snoc hc (by
          simp only [objHighB, List.all_eq_true]
          exact hvals)
    | obj fs =>
      obtain ⟨hp, hvals, hc⟩ := stAllocFields_spec (fun h j => ih h j) fs h
      rw [allocJsonF]
      simp only [hAlloc]
      refine ⟨hp.trans (List.prefix_append _ _), ?_, ?_⟩
      · simp only [valHighB, decide_eq_true_eq]
        exact hp.length_le
      · exact highClosed_snoc hc (by
          simp only [objHighB, List.all_eq_true]
          exact hvals)

theorem allocJson_spec (h : Heap) (j : Json) :
    h <+: (allocJson h j).1 ∧ valHighB h.length (allocJson h j).2 = true ∧
      HighClosed h.length (allocJson h j).1 :=
  allocJsonF_spec (jsonFuel j) h j

theorem filterById_ok_sub {h : Heap} {idf tok : String}
    {items kept : List PyVal}
    (hr : filterById h idf tok items = .ok kept) : ∀ v ∈ kept, v ∈ items := by
  induction items generalizing kept with
  | nil =>
    rw [filterById] at hr
    cases hr
    intro v hv
    exact absurd hv (by simp)
  | cons item rest ih =>
    cases item with
    | atom a => rw [filterById] at hr; exact absurd hr (by simp)
    | ref a =>
      rw [filterById] at hr
      cases ho : h[a]? with
      | none => rw [ho] at hr; exact absurd hr (by simp)
      | some o =>
        rw [ho] at hr
        cases o with
        | list l => exact absurd hr (by simp)
        | dict flds =>
          have hr2 : (match filterById h idf tok rest with
              | .error e => Except.error e
              | .ok kept' =>
                Except.ok (if matchesId flds idf tok then kept'
                  else PyVal.ref a :: kept')) = Except.ok kept := hr
          cases hrest : filterById h idf tok rest with
          | error e => rw [hrest] at hr2; exact absurd hr2 (by simp)
          | ok kept' =>
            rw [hrest] at hr2
            simp only [Except.ok.injEq] at hr2
            subst hr2
            intro v hv
            by_cases hm : matchesId flds idf tok
            · rw [if_pos hm] at hv
              exact List.mem_cons_of_mem _ (ih hrest v hv)
            · rw [if_neg hm] at hv
              rcases List.mem_cons.mp hv with h | h
              · exact h ▸ List.mem_cons_self _ _
              · exact List.mem_cons_of_mem _ (ih hrest v h)

theorem heapInv_snoc {n : Nat} {h0 h : Heap} (hinv : HeapInv n h0 h)
    {o : PyObj} (ho : objHighB n o = true) : HeapInv n h0 (h ++ [o]) := by
  obtain ⟨hag, hlen, hhc⟩ := hinv
  refine ⟨?_, by simp; omega, highClosed_snoc hhc ho⟩
  intro a ha
  rw [List.getElem?_append_left (by omega)]
  exact hag a ha

theorem mem_of_getElem?_eq_some {l : List α} {i : Nat} {x : α}
    (h : l[i]? = some x) : x ∈ l := by
  obtain ⟨hlt, he⟩ := List.getElem?_eq_some_iff.mp h
  exact he ▸ List.getElem_mem hlt

theorem navOne_inv {n : Nat} {h0 h : Heap} (hinv : HeapInv n h0 h)
    {cur : PyVal} (hcur : valHighB n cur = true) (part : PathPart) :
    HeapInv n h0 (navOne h cur part).1 ∧
      (∀ v, (navOne h cur part).2 = .ok v → valHighB n v = true) := by
  cases part with
  | field k =>
    cases cur with
    | atom a => exact ⟨hinv, fun v hv => by simp [navOne] at hv⟩
    | ref a =>
      have ha : n ≤ a := by simpa [valHighB] using hcur
      cases hobj : h[a]? with
      | none => exact ⟨by simpa [navOne, hobj] using hinv, fun v hv => by
          simp [navOne, hobj] at hv⟩
      | some o =>
        cases o with
        | list items =>
          exact ⟨by simpa [navOne, hobj] using hinv, fun v hv => by
            simp [navOne, hobj] at hv⟩
        | dict flds =>
          cases hget : alistGet flds k with
          | some v0 =>
            refine ⟨by simpa [navOne, hobj, hget] using hinv, fun v hv => ?_⟩
            have : v0 = v := by simpa [navOne, hobj, hget] using hv
            subst this
            exact highClosed_dict_val hinv.2.2 ha hobj hget
          | none =>
            have hflds : objHighB n (.dict flds) = true := hinv.2.2 a _ ha hobj
            have hinv1 : HeapInv n h0 (h ++ [.dict []]) :=
              heapInv_snoc hinv (by simp [objHighB])
            have hobj1 : (h ++ [PyObj.dict []])[a]? = some (.dict flds) := by
              rw [List.getElem?_append_left (by
                have := List.getElem?_eq_some_iff.mp hobj
                exact this.1)]
              exact hobj
            have hlen : n ≤ h.length := hinv.2.1
            have hinv2 : HeapInv n h0
                (hSet (h ++ [.dict []]) a
                  (.dict (alistSet flds k (.ref h.length)))) :=
              heapInv_set hinv1 ha
                (objHighB_dict_set hflds (by
                  simp only [valHighB, decide_eq_true_eq]
                  exact hlen))
            refine ⟨by simpa [navOne, hobj, hget, hAlloc] using hinv2,
              fun v hv => ?_⟩
            have : PyVal.ref h.length = v := by
              simpa [navOne, hobj, hget, hAlloc] using hv
            subst this
            simp only [valHighB, decide_eq_true_eq]
            exact hlen
  | idx i =>
    cases cur with
    | atom a =>
      cases a with
      | str s =>
        cases hc : s.data[i]? with
        | none => exact ⟨by simpa [navOne, hc] using hinv, fun v hv => by
            simp [navOne, hc] at hv⟩
        | some c =>
          refine ⟨by simpa [navOne, hc] using hinv, fun v hv => ?_⟩
          have : PyVal.atom (.str (String.mk [c])) = v := by
            simpa [navOne, hc] using hv
          subst this
          rfl
      | null => exact ⟨hinv, fun v hv => by simp [navOne] at hv⟩
      | bool b => exact ⟨hinv, fun v hv => by simp [navOne] at hv⟩
      | int m => exact ⟨hinv, fun v hv => by simp [navOne] at hv⟩
    | ref a =>
      have ha : n ≤ a := by simpa [valHighB] using hcur
      cases hobj : h[a]? with
      | none => exact ⟨by simpa [navOne, hobj] using hinv, fun v hv => by
          simp [navOne, hobj] at hv⟩
      | some o =>
        cases o with
        | dict flds =>
          exact ⟨by simpa [navOne, hobj] using hinv, fun v hv => by
            simp [navOne, hobj] at hv⟩
        | list items =>
          cases hit : items[i]? with
          | none => exact ⟨by simpa [navOne, hobj, hit] using hinv,
              fun v hv => by simp [navOne, hobj, hit] at hv⟩
          | some v0 =>
            refine ⟨by simpa [navOne, hobj, hit] using hinv, fun v hv => ?_⟩
            have : v0 = v := by simpa [navOne, hobj, hit] using hv
            subst this
            exact highClosed_list_item hinv.2.2 ha hobj
              (mem_of_getElem?_eq_some hit)
  | idLookup k tok =>
    cases cur with
    | atom a => exact ⟨hinv, fun v hv => by simp [navOne] at hv⟩
    | ref a =>
      have ha : n ≤ a := by simpa [valHighB] using hcur
      cases hobj : h[a]? with
      | none => exact ⟨by simpa [navOne, hobj] using hinv, fun v hv => by
          simp [navOne, hobj] at hv⟩
      | some o =>
        cases o with
        | list items =>
          exact ⟨by simpa [navOne, hobj] using hinv, fun v hv => by
            simp [navOne, hobj] at hv⟩
        | dict flds =>
          cases hget : alistGet flds k with
          | none => exact ⟨by simpa [navOne, hobj, hget] using hinv,
              fun v hv => by simp [navOne, hobj, hget] at hv⟩
          | some w =>
            cases w with
            | atom b => exact ⟨by simpa [navOne, hobj, hget] using hinv,
                fun v hv => by simp [navOne, hobj, hget] at hv⟩
            | ref la =>
              have hla : n ≤ la := by
                have := highClosed_dict_val hinv.2.2 ha hobj hget
                simpa [valHighB] using this
              cases hlobj : h[la]? with
              | none => exact ⟨by simpa [navOne, hobj, hget, hlobj] using hinv,
                  fun v hv => by simp [navOne, hobj, hget, hlobj] at hv⟩
              | some lo =>
                cases lo with
                | dict f2 =>
                  exact ⟨by simpa [navOne, hobj, hget, hlobj] using hinv,
                    fun v hv => by simp [navOne, hobj, hget, hlobj] at hv⟩
                | list items =>
                  refine ⟨by simpa [navOne, hobj, hget, hlobj] using hinv,
                    fun v hv => ?_⟩
                  have hfb : findById h k (get_id_field_for_list k) tok items
                      = .ok v := by
                    simpa [navOne, hobj, hget, hlobj] using hv
                  exact highClosed_list_item hinv.2.2 hla hlobj
                    (findById_ok_mem hfb)

theorem navParts_inv {n : Nat} {h0 : Heap} :
    ∀ (parts : List PathPart) {h : Heap} {cur : PyVal},
      HeapInv n h0 h → valHighB n cur = true →
      HeapInv n h0 (navParts h cur parts).1 ∧
        (∀ v, (navParts h cur parts).2 = .ok v → valHighB n v = true) := by
  intro parts
  induction parts with
  | nil =>
    intro h cur hinv hcur
    exact ⟨hinv, fun v hv => by
      rw [navParts] at hv
      cases hv
      exact hcur⟩
  | cons p ps ih =>
    intro h cur hinv hcur
    have hone := navOne_inv hinv hcur p
    rw [navParts]
    cases heq : navOne h cur p with
    | mk h1 r =>
      rw [heq] at hone
      cases r with
      | error e =>
        exact ⟨hone.1, fun v hv => by simp at hv⟩
      | ok v1 =>
        exact ih hone.1 (hone.2 v1 rfl)

theorem heapInv_alloc {n : Nat} {h0 h : Heap} (hinv : HeapInv n h0 h)
    (value : Json) : HeapInv n h0 (allocJson h value).1 ∧
      valHighB n (allocJson h value).2 = true := by
  obtain ⟨hp, hv, hc⟩ := allocJson_spec h value
  exact ⟨heapInv_extend hinv hp hc, valHighB_mono hinv.2.1 hv⟩

theorem getElem?_stable_alloc {h : Heap} (value : Json) {a : Nat} {o : PyObj}
    (hobj : h[a]? = some o) : (allocJson h value).1[a]? = some o := by
  obtain ⟨hp, _, _⟩ := allocJson_spec h value
  rw [prefix_getElem? hp (List.getElem?_eq_some_iff.mp hobj).1]
  exact hobj

theorem applyFinal_inv {n : Nat} {h0 h : Heap} (hinv : HeapInv n h0 h)
    {cur : PyVal} (hcur : valHighB n cur = true) (fp : PathPart) (op : String)
    (value : Json) (path : String) :
    HeapInv n h0 (applyFinal h cur fp op value path).1 := by
  have hvala := heapInv_alloc hinv value
  by_cases hop1 : op = "replace"
  · cases fp with
    | field k =>
      cases cur with
      | atom a => simpa [applyFinal, hop1] using hinv
      | ref a =>
        have ha : n ≤ a := by simpa [valHighB] using hcur
        cases hobj : h[a]? with
        | none => simpa [applyFinal, hop1, hobj] using hinv
        | some o =>
          cases o with
          | list items => simpa [applyFinal, hop1, hobj] using hinv
          | dict flds =>
            have hflds : objHighB n (.dict flds) = true := hinv.2.2 a _ ha hobj
            simp only [applyFinal, hop1, hobj, if_pos rfl]
            exact heapInv_set hvala.1 ha (objHighB_dict_set hflds hvala.2)
    | idx i =>
      cases cur with
      | atom a => simpa [applyFinal, hop1] using hinv
      | ref a =>
        have ha : n ≤ a := by simpa [valHighB] using hcur
        cases hobj : h[a]? with
        | none => simpa [applyFinal, hop1, hobj] using hinv
        | some o =>
          cases o with
          | dict flds => simpa [applyFinal, hop1, hobj] using hinv
          | list items =>
            have hitems : objHighB n (.list items) = true := hinv.2.2 a _ ha hobj
            by_cases hrange : i < items.length
            · simp only [applyFinal, hop1, hobj, if_pos rfl, if_pos hrange]
              refine heapInv_set hvala.1 ha (objHighB_list_mem ?_)
              intro v hv
              rcases List.mem_or_eq_of_mem_set hv with h' | h'
              · exact objHighB_list_elim hitems v h'
              · exact h' ▸ hvala.2
            · simpa [applyFinal, hop1, hobj, hrange] using hinv
    | idLookup k tok =>
      cases cur with
      | atom a => simpa [applyFinal, hop1] using hinv
      | ref a =>
        have ha : n ≤ a := by simpa [valHighB] using hcur
        cases hobj : h[a]? with
        | none => simpa [applyFinal, hop1, hobj] using hinv
        | some o =>
          cases o with
          | list items => simpa [applyFinal, hop1, hobj] using hinv
          | dict flds =>
            cases hget : alistGet flds k with
            | none => simpa [applyFinal, hop1, hobj, hget] using hinv
            | some w =>
              cases w with
              | atom b => simpa [applyFinal, hop1, hobj, hget] using hinv
              | ref la =>
                have hla : n ≤ la := by
                  have := highClosed_dict_val hinv.2.2 ha hobj hget
                  simpa [valHighB] using this
                cases hlobj : h[la]? with
                | none => simpa [applyFinal, hop1, hobj, hget, hlobj] using hinv
                | some lo =>
                  cases lo with
                  | dict f2 =>
                    simpa [applyFinal, hop1, hobj, hget, hlobj] using hinv
                  | list items =>
                    have hitems : objHighB n (.list items) = true :=
                      hinv.2.2 la _ hla hlobj
                    cases hscan : replaceByIdScan h (get_id_field_for_list k)
                        tok items with
                    | error e =>
                      simpa [applyFinal, hop1, hobj, hget, hlobj, hscan]
                        using hinv
                    | ok oi =>
                      cases oi with
                      | none =>
                        simpa [applyFinal, hop1, hobj, hget, hlobj, hscan]
                          using hinv
                      | some i =>
                        simp only [applyFinal, hop1, hobj, hget, hlobj, hscan,
                          if_pos rfl]
                        refine heapInv_set hvala.1 hla (objHighB_list_mem ?_)
                        intro v hv
                        rcases List.mem_or_eq_of_mem_set hv with h' | h'
                        · exact objHighB_list_elim hitems v h'
                        · exact h' ▸ hvala.2
  · by_cases hop2 : op = "add"
    · cases fp with
      | idx i => simpa [applyFinal, hop1, hop2] using hinv
      | idLookup k tok => simpa [applyFinal, hop1, hop2] using hinv
      | field k =>
        cases cur with
        | atom a => simpa [applyFinal, hop1, hop2] using hinv
        | ref a =>
          have ha : n ≤ a := by simpa [valHighB] using hcur
          cases hobj : h[a]? with
          | none => simpa [applyFinal, hop1, hop2, hobj] using hinv
          | some o =>
            cases o with
            | list items => simpa [applyFinal, hop1, hop2, hobj] using hinv
            | dict flds =>
              have hflds : objHighB n (.dict flds) = true :=
                hinv.2.2 a _ ha hobj
              cases hget : alistGet flds k with
              | none => simpa [applyFinal, hop1, hop2, hobj, hget] using hinv
              | some w =>
                cases w with
                | atom b =>
                  simp only [applyFinal, hop1, hop2, hobj, hget, if_pos rfl,
                    if_neg (by simp : ¬("add" : String) = "replace")]
                  exact heapInv_set hvala.1 ha
                    (objHighB_dict_set hflds hvala.2)
                | ref ca =>
                  have hca : n ≤ ca := by
                    have := highClosed_dict_val hinv.2.2 ha hobj hget
                    simpa [valHighB] using this
                  cases hcobj : h[ca]? with
                  | none =>
                    simpa [applyFinal, hop1, hop2, hobj, hget, hcobj] using hinv
                  | some co =>
                    cases co with
                    | dict f2 =>
                      simp only [applyFinal, hop1, hop2, hobj, hget, hcobj,
                        if_pos rfl, if_neg (by simp : ¬("add" : String) = "replace")]
                      exact heapInv_set hvala.1 ha
                        (objHighB_dict_set hflds hvala.2)
                    | list items =>
                      have hitems : objHighB n (.list items) = true :=
                        hinv.2.2 ca _ hca hcobj
                      simp only [applyFinal, hop1, hop2, hobj, hget, hcobj,
                        if_pos rfl, if_neg (by simp : ¬("add" : String) = "replace")]
                      refine heapInv_set hvala.1 hca (objHighB_list_mem ?_)
                      intro v hv
                      rcases List.mem_append.mp hv with h' | h'
                      · exact objHighB_list_elim hitems v h'
                      · have : v = (allocJson h value).2 := by simpa using h'
                        exact this ▸ hvala.2
    · by_cases hop3 : op = "remove"
      · cases fp with
        | field k =>
          cases cur with
          | atom a =>
            cases a with
            | str s =>
              by_cases hin : strContains k.data s.data
              · simpa [applyFinal, hop1, hop2, hop3, hin] using hinv
              · simpa [applyFinal, hop1, hop2, hop3, hin] using hinv
            | null => simpa [applyFinal, hop1, hop2, hop3] using hinv
            | bool b => simpa [applyFinal, hop1, hop2, hop3] using hinv
            | int m => simpa [applyFinal, hop1, hop2, hop3] using hinv
          | ref a =>
            have ha : n ≤ a := by simpa [valHighB] using hcur
            cases hobj : h[a]? with
            | none => simpa [applyFinal, hop1, hop2, hop3, hobj] using hinv
            | some o =>
              cases o with
              | list items =>
                by_cases hin : (PyVal.atom (JAtom.str k)) ∈ items
                · simpa [applyFinal, hop1, hop2, hop3, hobj, hin] using hinv
                · simpa [applyFinal, hop1, hop2, hop3, hobj, hin] using hinv
              | dict flds =>
                have hflds : objHighB n (.dict flds) = true :=
                  hinv.2.2 a _ ha hobj
                by_cases hhas : alistHas flds k
                · simp only [applyFinal, hop1, hop2, hop3, hobj, if_pos rfl,
                    if_pos hhas,
                    if_neg (by simp : ¬("remove" : String) = "replace"),
                    if_neg (by simp : ¬("remove" : String) = "add")]
                  exact heapInv_set hinv ha (objHighB_dict_del hflds)
                · simpa [applyFinal, hop1, hop2, hop3, hobj, hhas] using hinv
        | idx i =>
          cases cur with
          | atom a => simpa [applyFinal, hop1, hop2, hop3] using hinv
          | ref a =>
            have ha : n ≤ a := by simpa [valHighB] using hcur
            cases hobj : h[a]? with
            | none => simpa [applyFinal, hop1, hop2, hop3, hobj] using hinv
            | some o =>
              cases o with
              | dict flds => simpa [applyFinal, hop1, hop2, hop3, hobj] using hinv
              | list items =>
                have hitems : objHighB n (.list items) = true :=
                  hinv.2.2 a _ ha hobj
                by_cases hrange : i < items.length
                · simp only [applyFinal, hop1, hop2, hop3, hobj, if_pos rfl,
                    if_pos hrange,
                    if_neg (by simp : ¬("remove" : String) = "replace"),
                    if_neg (by simp : ¬("remove" : String) = "add")]
                  refine heapInv_set hinv ha (objHighB_list_mem ?_)
                  intro v hv
                  exact objHighB_list_elim hitems v (List.mem_of_mem_eraseIdx hv)
                · simpa [applyFinal, hop1, hop2, hop3, hobj, hrange] using hinv
        | idLookup k tok =>
          cases cur with
          | atom a => simpa [applyFinal, hop1, hop2, hop3] using hinv
          | ref a =>
            have ha : n ≤ a := by simpa [valHighB] using hcur
            cases hobj : h[a]? with
            | none => simpa [applyFinal, hop1, hop2, hop3, hobj] using hinv
            | some o =>
              cases o with
              | list items => simpa [applyFinal, hop1, hop2, hop3, hobj] using hinv
              | dict flds =>
                have hflds : objHighB n (.dict flds) = true :=
                  hinv.2.2 a _ ha hobj
                have hlen : n ≤ h.length := hinv.2.1
                cases hget : alistGet flds k with
                | none =>
                  simp only [applyFinal, hop1, hop2, hop3, hobj, hget,
                    if_pos rfl, hAlloc,
                    if_neg (by simp : ¬("remove" : String) = "replace"),
                    if_neg (by simp : ¬("remove" : String) = "add")]
                  refine heapInv_set (heapInv_snoc hinv (by simp [objHighB])) ha
                    (objHighB_dict_set hflds (by
                      simp only [valHighB, decide_eq_true_eq]
                      exact hlen))
                | some w =>
                  cases w with
                  | atom b =>
                    simpa [applyFinal, hop1, hop2, hop3, hobj, hget] using hinv
                  | ref la =>
                    have hla : n ≤ la := by
                      have := highClosed_dict_val hinv.2.2 ha hobj hget
                      simpa [valHighB] using this
                    cases hlobj : h[la]? with
                    | none =>
                      simpa [applyFinal, hop1, hop2, hop3, hobj, hget, hlobj]
                        using hinv
                    | some lo =>
                      cases lo with
                      | dict f2 =>
                        simpa [applyFinal, hop1, hop2, hop3, hobj, hget, hlobj]
                          using hinv
                      | list items =>
                        have hitems : objHighB n (.list items) = true :=
                          hinv.2.2 la _ hla hlobj
                        cases hfil : filterById h (get_id_field_for_list k)
                            tok items with
                        | error e =>
                          simpa [applyFinal, hop1, hop2, hop3, hobj, hget,
                            hlobj, hfil] using hinv
                        | ok kept =>
                          simp only [applyFinal, hop1, hop2, hop3, hobj, hget,
                            hlobj, hfil, if_pos rfl, hAlloc,
                            if_neg (by simp : ¬("remove" : String) = "replace"),
                            if_neg (by simp : ¬("remove" : String) = "add")]
                          refine heapInv_set
                            (heapInv_snoc hinv (objHighB_list_mem ?_)) ha
                            (objHighB_dict_set hflds (by
                              simp only [valHighB, decide_eq_true_eq]
                              exact hlen))
                          intro v hv
                          exact objHighB_list_elim hitems v
                            (filterById_ok_sub hfil v hv)
      · simpa [applyFinal, hop1, hop2, hop3] using hinv

theorem applySinglePatch_inv {n : Nat} {h0 h : Heap} (hinv : HeapInv n h0 h)
    {root : Nat} (hroot : n ≤ root) (p : Patch) :
    HeapInv n h0 (applySinglePatch h root p).1 := by
  unfold applySinglePatch
  by_cases hpath : p.path = ""
  · simpa [hpath] using hinv
  · rw [if_neg hpath]
    cases hpp : parse_path p.path with
    | error e => exact hinv
    | ok parts =>
      show HeapInv n h0 (match parts.getLast? with
          | none => (h, some PatchErr.indexError)
          | some finalPart =>
            match navParts h (PyVal.ref root) parts.dropLast with
            | (h1, Except.error e) => (h1, some e)
            | (h1, Except.ok cur) =>
              applyFinal h1 cur finalPart p.op p.value p.path).1
      cases hlast : parts.getLast? with
      | none => exact hinv
      | some fp =>
        have hnav := @navParts_inv n h0 parts.dropLast h _ hinv
          (show valHighB n (PyVal.ref root) = true by
            simp only [valHighB, decide_eq_true_eq]; exact hroot)
        cases heq : navParts h (.ref root) parts.dropLast with
        | mk h1 r =>
          rw [heq] at hnav
          cases r with
          | error e => exact hnav.1
          | ok cur => exact applyFinal_inv hnav.1 (hnav.2 cur rfl) fp p.op p.value p.path

theorem applyPatchList_inv {n : Nat} {h0 : Heap} {root : Nat} (hroot : n ≤ root) :
    ∀ (ps : List Patch) {h : Heap}, HeapInv n h0 h →
      HeapInv n h0 (applyPatchList h root ps).1 := by
  intro ps
  induction ps with
  | nil => intro h hinv; exact hinv
  | cons p ps ih =>
    intro h hinv
    have hone := applySinglePatch_inv hinv hroot p
    rw [applyPatchList]
    cases heq : applySinglePatch h root p with
    | mk h1 r =>
      rw [heq] at hone
      cases r with
      | none => exact ih hone
      | some e => exact hone

/-! ### Readback stability across the untouched region -/

theorem heapClosed_obj {h0 : Heap} {a : Nat} {o : PyObj}
    (hcl : heapClosedB h0 = true) (ho : h0[a]? = some o) :
    objLowB h0.length o = true := by
  unfold heapClosedB at hcl
  rw [List.all_eq_true] at hcl
  exact hcl o (mem_of_getElem?_eq_some ho)

theorem objLowB_dict_val {n : Nat} {flds : List (String × PyVal)} {k : String}
    {v : PyVal} (hf : objLowB n (.dict flds) = true)
    (hget : alistGet flds k = some v) : valLowB n v = true := by
  simp only [objLowB, List.all_eq_true] at hf
  obtain ⟨k', hk'⟩ := alistGet_mem hget
  exact hf (k', v) hk'

mutual
theorem readback_agree : ∀ (fuel : Nat) (h0 h' : Heap) (v : PyVal),
    heapClosedB h0 = true → AgreesBelow h0.length h0 h' →
    valLowB h0.length v = true → readback h' fuel v = readback h0 fuel v
  | fuel, h0, h', .atom a, _, _, _ => by
    rw [readback.eq_def, readback.eq_def]
    cases fuel <;> rfl
  | 0, h0, h', .ref a, _, _, _ => by
    rw [readback, readback]
  | fuel + 1, h0, h', .ref a, hcl, hag, hlow => by
    have ha : a < h0.length := by simpa [valLowB] using hlow
    rw [readback, readback, hag a ha]
    cases ho : h0[a]? with
    | none => rfl
    | some o =>
      have holow := heapClosed_obj hcl ho
      cases o with
      | dict flds =>
        show Option.map Json.obj (readbackFields h' fuel flds)
          = Option.map Json.obj (readbackFields h0 fuel flds)
        rw [readbackFields_agree fuel h0 h' flds hcl hag (by
          intro p hp
          simp only [objLowB, List.all_eq_true] at holow
          exact holow p hp)]
      | list items =>
        show Option.map Json.arr (readbackList h' fuel items)
          = Option.map Json.arr (readbackList h0 fuel items)
        rw [readbackList_agree fuel h0 h' items hcl hag (by
          intro v hv
          simp only [objLowB, List.all_eq_true] at holow
          exact holow v hv)]
termination_by fuel h0 h' v _ _ _ => (fuel, sizeOf v)

theorem readbackList_agree : ∀ (fuel : Nat) (h0 h' : Heap) (vs : List PyVal),
    heapClosedB h0 = true → AgreesBelow h0.length h0 h' →
    (∀ v ∈ vs, valLowB h0.length v = true) →
    readbackList h' fuel vs = readbackList h0 fuel vs
  | _, h0, h', [], _, _, _ => by rw [readbackList, readbackList]
  | fuel, h0, h', v :: vs, hcl, hag, hlow => by
    rw [readbackList, readbackList]
    rw [readback_agree fuel h0 h' v hcl hag (hlow v (List.mem_cons_self _ _))]
    rw [readbackList_agree fuel h0 h' vs hcl hag
      (fun w hw => hlow w (List.mem_cons_of_mem _ hw))]
termination_by fuel h0 h' vs _ _ _ => (fuel, sizeOf vs)

theorem readbackFields_agree : ∀ (fuel : Nat) (h0 h' : Heap)
    (fs : List (String × PyVal)),
    heapClosedB h0 = true → AgreesBelow h0.length h0 h' →
    (∀ p ∈ fs, valLowB h0.length p.2 = true) →
    readbackFields h' fuel fs = readbackFields h0 fuel fs
  | _, h0, h', [], _, _, _ => by rw [readbackFields, readbackFields]
  | fuel, h0, h', f :: fs, hcl, hag, hlow => by
    rw [readbackFields, readbackFields]
    rw [readback_agree fuel h0 h' f.2 hcl hag (hlow f (List.mem_cons_self _ _))]
    rw [readbackFields_agree fuel h0 h' fs hcl hag
      (fun p hp => hlow p (List.mem_cons_of_mem _ hp))]
termination_by fuel h0 h' fs _ _ _ => (fuel, sizeOf fs)
decreasing_by
  all_goals
    first
    | (apply Prod.Lex.right
       obtain ⟨f1, f2⟩ := f
       simp only [List.cons.sizeOf_spec, Prod.mk.sizeOf_spec]
       omega)
    | (apply Prod.Lex.right
       simp only [List.cons.sizeOf_spec]
       omega)
    | (apply Prod.Lex.left
       omega)
end

/-! ### The patch-engine claims -/

/-- Shape hypothesis for scans: every element of the collection is a dict on
the heap and none of them carries the identity token. -/
def NoMatchItems (h : Heap) (k tok : String) (items : List PyVal) : Prop :=
  ∀ item ∈ items, ∃ ia iflds, item = PyVal.ref ia ∧
    h[ia]? = some (PyObj.dict iflds) ∧
    matchesId iflds (get_id_field_for_list k) tok = false

theorem findById_no_match {h : Heap} {k tok : String} {items : List PyVal}
    (hnm : NoMatchItems h k tok items) :
    findById h k (get_id_field_for_list k) tok items
      = .error (.targetNotFound k tok) := by
  induction items with
  | nil => rw [findById]
  | cons item rest ih =>
    obtain ⟨ia, iflds, hitem, hia, hmm⟩ := hnm item (List.mem_cons_self _ _)
    subst hitem
    rw [findById, hia]
    show (if matchesId iflds (get_id_field_for_list k) tok = true then
        Except.ok (PyVal.ref ia)
      else findById h k (get_id_field_for_list k) tok rest)
      = Except.error (.targetNotFound k tok)
    rw [if_neg (by simp [hmm])]
    exact ih (fun it hit => hnm it (List.mem_cons_of_mem _ hit))

theorem replaceByIdScan_no_match {h : Heap} {k tok : String}
    {items : List PyVal} (hnm : NoMatchItems h k tok items) :
    replaceByIdScan h (get_id_field_for_list k) tok items = .ok none := by
  induction items with
  | nil => rw [replaceByIdScan]
  | cons item rest ih =>
    obtain ⟨ia, iflds, hitem, hia, hmm⟩ := hnm item (List.mem_cons_self _ _)
    subst hitem
    rw [replaceByIdScan, hia]
    show (if matchesId iflds (get_id_field_for_list k) tok = true then
        Except.ok (some 0)
      else Except.map (Option.map fun x => x + 1)
        (replaceByIdScan h (get_id_field_for_list k) tok rest))
      = Except.ok none
    rw [if_neg (by simp [hmm])]
    rw [ih (fun it hit => hnm it (List.mem_cons_of_mem _ hit))]
    rfl

theorem filterById_no_match {h : Heap} {k tok : String} {items : List PyVal}
    (hnm : NoMatchItems h k tok items) :
    filterById h (get_id_field_for_list k) tok items = .ok items := by
  induction items with
  | nil => rw [filterById]
  | cons item rest ih =>
    obtain ⟨ia, iflds, hitem, hia, hmm⟩ := hnm item (List.mem_cons_self _ _)
    subst hitem
    rw [filterById, hia]
    show (match filterById h (get_id_field_for_list k) tok rest with
      | Except.error e => Except.error e
      | Except.ok kept =>
        Except.ok (if matchesId iflds (get_id_field_for_list k) tok = true
          then kept else PyVal.ref ia :: kept))
      = Except.ok (PyVal.ref ia :: rest)
    rw [ih (fun it hit => hnm it (List.mem_cons_of_mem _ hit))]
    show Except.ok (if matchesId iflds (get_id_field_for_list k) tok = true
      then rest else PyVal.ref ia :: rest) = Except.ok (PyVal.ref ia :: rest)
    rw [if_neg (by simp [hmm])]

/-- C3: `apply_patches` operates on a fresh deep copy of the plan's object
graph, so whether it returns normally or raises, every address of the
caller's heap is untouched and the plan document at `planRoot` reads back
structurally equal before and after the call. -/
theorem claim_C3_apply_patches_no_mutation :
    ∀ (copyFuel : Nat) (h0 : Heap) (planRoot : Nat) (patches : List Patch)
      (res : Heap × Nat × Option PatchErr),
      heapClosedB h0 = true →
      apply_patches copyFuel h0 planRoot patches = some res →
      AgreesBelow h0.length h0 res.1 ∧
      (∀ fuel, readback res.1 fuel (.ref planRoot)
        = readback h0 fuel (.ref planRoot)) := by
  intro copyFuel h0 planRoot patches res hcl happ
  have hrootlt : planRoot < h0.length := by
    cases copyFuel with
    | zero => rw [apply_patches, copyVal] at happ; cases happ
    | succ f =>
      rw [apply_patches, copyVal] at happ
      cases ho : h0[planRoot]? with
      | none => rw [ho] at happ; cases happ
      | some o => exact (List.getElem?_eq_some_iff.mp ho).1
  unfold apply_patches at happ
  cases hcv : copyVal h0 copyFuel (.ref planRoot) with
  | none => rw [hcv] at happ; cases happ
  | some r =>
    obtain ⟨h1, v⟩ := r
    rw [hcv] at happ
    cases v with
    | atom a => cases happ
    | ref r0 =>
      simp only [Option.some.injEq] at happ
      obtain ⟨hp, hvhigh, hhc⟩ := copyVal_spec copyFuel h0 _ _ _ hcv
      have hroot : h0.length ≤ r0 := by
        simpa [valHighB] using hvhigh
      have hinv1 : HeapInv h0.length h0 h1 :=
        ⟨fun a ha => prefix_getElem? hp ha, hp.length_le, hhc⟩
      have hfin := applyPatchList_inv hroot patches hinv1
      rw [← happ]
      refine ⟨hfin.1, fun fuel => ?_⟩
      exact readback_agree fuel h0 _ (.ref planRoot) hcl hfin.1
        (by simp only [valLowB, decide_eq_true_eq]; exact hrootlt)

theorem claim_C3_apply_patches_no_mutation_witness :
    heapClosedB [PyObj.dict [("title", PyVal.atom (.str "t"))]] = true ∧
    apply_patches 3 [PyObj.dict [("title", PyVal.atom (.str "t"))]] 0
        [⟨"title", "replace", .atom (.str "u")⟩]
      = some ([PyObj.dict [("title", PyVal.atom (.str "t"))],
               PyObj.dict [("title", PyVal.atom (.str "u"))]], 1, none) ∧
    (AgreesBelow 1 [PyObj.dict [("title", PyVal.atom (.str "t"))]]
        [PyObj.dict [("title", PyVal.atom (.str "t"))],
         PyObj.dict [("title", PyVal.atom (.str "u"))]] ∧
      ∀ fuel,
        readback [PyObj.dict [("title", PyVal.atom (.str "t"))],
          PyObj.dict [("title", PyVal.atom (.str "u"))]] fuel (.ref 0)
        = readback [PyObj.dict [("title", PyVal.atom (.str "t"))]] fuel
            (.ref 0)) :=
  ⟨by decide, by decide,
    claim_C3_apply_patches_no_mutation 3
      [PyObj.dict [("title", PyVal.atom (.str "t"))]] 0
      [⟨"title", "replace", .atom (.str "u")⟩]
      ([PyObj.dict [("title", PyVal.atom (.str "t"))],
        PyObj.dict [("title", PyVal.atom (.str "u"))]], 1, none)
      (by decide) (by decide)⟩

/-- C4 counterexample: with the collection `characters = [{"character_id":
"CHAR_01"}]` and the unknown token `CHAR_99` in the FINAL path segment, both
`replace` and `remove` return successfully (no `PatchTargetNotFound`, no
exception at all), refuting the claim that the engine always fails when no
element's identity field equals the token. -/
theorem claim_C4_counterexample :
    ((apply_patches 10
        [PyObj.dict [("character_id", PyVal.atom (.str "CHAR_01"))],
         PyObj.list [PyVal.ref 0],
         PyObj.dict [("characters", PyVal.ref 1)]] 2
        [⟨"characters[CHAR_99]", "replace", .atom (.str "x")⟩]).map
      (fun r => r.2.2) = some none) ∧
    ((apply_patches 10
        [PyObj.dict [("character_id", PyVal.atom (.str "CHAR_01"))],
         PyObj.list [PyVal.ref 0],
         PyObj.dict [("characters", PyVal.ref 1)]] 2
        [⟨"characters[CHAR_99]", "remove", .atom .null⟩]).map
      (fun r => r.2.2) = some none) := by
  constructor
  · decide
  · decide

/-- C4 as amended: an unknown identity token raises `PatchTargetNotFound`
(the source's `ValueError`) only while it is an intermediate navigation step
— both when the collection key is missing and when no element matches — and
that navigation error aborts the patch; as the FINAL segment of `replace` the
engine silently leaves the heap unchanged, and as the final segment of
`remove` it rebuilds the collection with exactly the same elements (nothing
removed) and succeeds. -/
theorem claim_C4_target_not_found_amended :
    (∀ (h : Heap) (a : Nat) (flds : List (String × PyVal)) (k tok : String),
      h[a]? = some (.dict flds) → alistGet flds k = none →
      navOne h (.ref a) (.idLookup k tok)
        = (h, .error (.targetNotFound k tok))) ∧
    (∀ (h : Heap) (a : Nat) (flds : List (String × PyVal)) (k tok : String)
        (la : Nat) (items : List PyVal),
      h[a]? = some (.dict flds) → alistGet flds k = some (.ref la) →
      h[la]? = some (.list items) → NoMatchItems h k tok items →
      navOne h (.ref a) (.idLookup k tok)
        = (h, .error (.targetNotFound k tok))) ∧
    (∀ (h : Heap) (root : Nat) (p : Patch) (parts : List PathPart)
        (fp : PathPart) (h' : Heap) (e : PatchErr),
      p.path ≠ "" → parse_path p.path = .ok parts →
      parts.getLast? = some fp →
      navParts h (.ref root) parts.dropLast = (h', .error e) →
      applySinglePatch h root p = (h', some e)) ∧
    (∀ (h : Heap) (a : Nat) (flds : List (String × PyVal)) (k tok : String)
        (la : Nat) (items : List PyVal) (value : Json) (path : String),
      h[a]? = some (.dict flds) → alistGet flds k = some (.ref la) →
      h[la]? = some (.list items) → NoMatchItems h k tok items →
      applyFinal h (.ref a) (.idLookup k tok) "replace" value path
        = (h, none)) ∧
    (∀ (h : Heap) (a : Nat) (flds : List (String × PyVal)) (k tok : String)
        (la : Nat) (items : List PyVal) (value : Json) (path : String),
      h[a]? = some (.dict flds) → alistGet flds k = some (.ref la) →
      h[la]? = some (.list items) → NoMatchItems h k tok items →
      applyFinal h (.ref a) (.idLookup k tok) "remove" value path
        = (hSet (h ++ [.list items]) a
            (.dict (alistSet flds k (.ref h.length))), none) ∧
      (hSet (h ++ [.list items]) a
          (.dict (alistSet flds k (.ref h.length))))[h.length]?
        = some (.list items)) := by
  refine ⟨?_, ?_, ?_, ?_, ?_⟩
  · intro h a flds k tok hobj hget
    simp only [navOne, hobj, hget]
  · intro h a flds k tok la items hobj hget hlobj hnm
    simp only [navOne, hobj, hget, hlobj, findById_no_match hnm]
  · intro h root p parts fp h' e hpath hpp hlast hnav
    unfold applySinglePatch
    rw [if_neg hpath, hpp]
    show (match parts.getLast? with
        | none => (h, some PatchErr.indexError)
        | some finalPart =>
          match navParts h (PyVal.ref root) parts.dropLast with
          | (h1, Except.error e) => (h1, some e)
          | (h1, Except.ok cur) =>
            applyFinal h1 cur finalPart p.op p.value p.path) = (h', some e)
    rw [hlast, hnav]
  · intro h a flds k tok la items value path hobj hget hlobj hnm
    simp only [applyFinal, reduceIte, hobj, hget, hlobj,
      replaceByIdScan_no_match hnm]
  · intro h a flds k tok la items value path hobj hget hlobj hnm
    constructor
    · simp only [applyFinal, reduceIte, hobj, hget, hlobj,
        filterById_no_match hnm, hAlloc]
      rw [if_neg (by decide : ¬("remove" : String) = "replace"),
        if_neg (by decide : ¬("remove" : String) = "add")]
    · have ha : a < h.length := (List.getElem?_eq_some_iff.mp hobj).1
      unfold hSet
      rw [List.getElem?_set_ne (by omega)]
      exact List.getElem?_concat_length _ _

theorem claim_C4_target_not_found_amended_witness :
    ([PyObj.dict [("character_id", PyVal.atom (.str "CHAR_01"))],
      PyObj.list [PyVal.ref 0],
      PyObj.dict [("characters", PyVal.ref 1)]] : Heap)[2]?
        = some (.dict [("characters", PyVal.ref 1)]) ∧
    navOne [PyObj.dict [("character_id", PyVal.atom (.str "CHAR_01"))],
        PyObj.list [PyVal.ref 0],
        PyObj.dict [("characters", PyVal.ref 1)]]
      (.ref 2) (.idLookup "characters" "CHAR_99")
      = ([PyObj.dict [("character_id", PyVal.atom (.str "CHAR_01"))],
          PyObj.list [PyVal.ref 0],
          PyObj.dict [("characters", PyVal.ref 1)]],
         .error (.targetNotFound "characters" "CHAR_99")) := by
  refine ⟨by decide, ?_⟩
  exact claim_C4_target_not_found_amended.2.1
    [PyObj.dict [("character_id", PyVal.atom (.str "CHAR_01"))],
     PyObj.list [PyVal.ref 0],
     PyObj.dict [("characters", PyVal.ref 1)]]
    2 [("characters", PyVal.ref 1)] "characters" "CHAR_99" 1 [PyVal.ref 0]
    (by decide) (by decide) (by decide)
    (by
      intro item hitem
      have : item = PyVal.ref 0 := by simpa using hitem
      subst this
      exact ⟨0, [("character_id", PyVal.atom (.str "CHAR_01"))], rfl,
        by decide, by decide⟩)

/-- C5 counterexample: a patch list containing the unsupported op
`"frobnicate"` does not fail at all — the engine returns successfully (no
`PatchOpError`), refuting the claim. -/
theorem claim_C5_counterexample :
    (apply_patches 10
        [PyObj.dict [("character_id", PyVal.atom (.str "CHAR_01"))],
         PyObj.list [PyVal.ref 0],
         PyObj.dict [("characters", PyVal.ref 1)]] 2
        [⟨"project_bible.title", "frobnicate", .atom (.str "x")⟩]).map
      (fun r => r.2.2) = some none := by
  decide

/-- C5 as amended: an operation whose op string is not one of `replace`,
`add`, `remove` matches no branch of the final dispatch and is silently
skipped: the final-segment dispatch never touches the heap and raises
nothing, and the whole patch performs only the navigation of its path prefix
(including its auto-creation side effects on the working copy and its
navigation errors). -/
theorem claim_C5_unknown_op_amended :
    ∀ (op : String), op ≠ "replace" → op ≠ "add" → op ≠ "remove" →
      (∀ (h : Heap) (cur : PyVal) (fp : PathPart) (value : Json)
          (path : String), applyFinal h cur fp op value path = (h, none)) ∧
      (∀ (h : Heap) (root : Nat) (p : Patch) (parts : List PathPart)
          (fp : PathPart) (h' : Heap) (cur : PyVal),
        p.op = op → p.path ≠ "" → parse_path p.path = .ok parts →
        parts.getLast? = some fp →
        navParts h (.ref root) parts.dropLast = (h', .ok cur) →
        applySinglePatch h root p = (h', none)) := by
  intro op hop1 hop2 hop3
  have hfin : ∀ (h : Heap) (cur : PyVal) (fp : PathPart) (value : Json)
      (path : String), applyFinal h cur fp op value path = (h, none) := by
    intro h cur fp value path
    rw [applyFinal.eq_def, if_neg hop1, if_neg hop2, if_neg hop3]
  refine ⟨hfin, ?_⟩
  intro h root p parts fp h' cur hpop hpath hpp hlast hnav
  unfold applySinglePatch
  rw [if_neg hpath, hpp]
  show (match parts.getLast? with
      | none => (h, some PatchErr.indexError)
      | some finalPart =>
        match navParts h (PyVal.ref root) parts.dropLast with
        | (h1, Except.error e) => (h1, some e)
        | (h1, Except.ok cur) =>
          applyFinal h1 cur finalPart p.op p.value p.path) = (h', none)
  rw [hlast, hnav]
  show applyFinal h' cur fp p.op p.value p.path = (h', none)
  rw [hpop]
  exact hfin h' cur fp p.value p.path

theorem claim_C5_unknown_op_amended_witness :
    (("frobnicate" : String) ≠ "replace" ∧ ("frobnicate" : String) ≠ "add" ∧
      ("frobnicate" : String) ≠ "remove") ∧
    applyFinal [PyObj.dict []] (.ref 0) (.field "title") "frobnicate"
      (.atom (.str "x")) "title" = ([PyObj.dict []], none) := by
  refine ⟨⟨by decide, by decide, by decide⟩, ?_⟩
  exact (claim_C5_unknown_op_amended "frobnicate" (by decide) (by decide)
    (by decide)).1 [PyObj.dict []] (.ref 0) (.field "title")
    (.atom (.str "x")) "title"

/-- C10: on the document `{}` the single patch
`{"path": "c.b", "op": "add"}` auto-creates the missing intermediate key `c`
as an empty object but then raises an untyped `KeyError` on the missing final
key `b` (the code reads `current[final_part]` before deciding how to add),
as the resulting heap shows: the working copy at address 1 gained
`{"c": ref 2}` while the patch failed with `keyError`. -/
theorem claim_C10_add_missing_final_key :
    apply_patches 5 [PyObj.dict []] 0 [⟨"c.b", "add", .atom .null⟩]
      = some ([PyObj.dict [], PyObj.dict [("c", PyVal.ref 2)], PyObj.dict []],
          1, some .keyError) := by
  decide

end AVMP
